import Mathlib

/-!
Verification of `scripts/verify.py` (problem-package metadata checker).

This file gives a shallow embedding of the script in Lean 4 and proves
theorems about its behaviour.  Conventions of the embedding:

* Python/JSON values are modelled by `Json`.  Arrays and objects are
  modelled as cons-chains (`arrCons`/`objCons`) so that every function on
  them is structurally recursive and closed terms evaluate by `decide`.
* Python exceptions that the script may raise and not catch are modelled
  by `PyExn`; fallible code returns `Except PyExn _`.
* The two global accumulator lists `errors` and `warnings` are modelled
  explicitly: verification functions return the list of diagnostics they
  append.  A diagnostic is a constructor of `Diag`/`Warn` carrying the
  data interpolated into the message; `renderDiag` produces the exact
  message text of the source.
* Python iterates sets (`list(set(..))`, `set - set`) in unspecified
  order; the embedding fixes first-occurrence order.  No theorem below
  depends on the order of those items.
* Python floats are modelled as exact rationals; the only float
  comparison in the script is `time_limit < 0.5` and `0.5` is exactly
  representable.
* The environment-dependent inputs (directory listings, file contents,
  the git remote basename, the statement file) are passed as explicit
  parameters.
-/

/-- Python exceptions the script can raise without catching. -/
inductive PyExn where
  | typeError
  | attributeError
  | valueError
  | indexError
  | keyError (k : String)
  | calledProcessError
deriving DecidableEq, Repr

/-- JSON / Python values.  Arrays and objects are cons-chains
(`arrNil`/`arrCons`, `objNil`/`objCons`) rather than nested lists so that
recursion over them is structural.  `int` and `float` are separate, as in
Python (`json` parses `2` to `int` and `2.0` to `float`); `bool` is kept
separate but the `isinstance(_, int)` test treats it as an integer, as
Python does. -/
inductive Json where
  | null
  | bool (b : Bool)
  | int (n : Int)
  | float (q : Rat)
  | str (s : String)
  | arrNil
  | arrCons (head : Json) (tail : Json)
  | objNil
  | objCons (key : String) (val : Json) (tail : Json)
deriving DecidableEq, Repr

/-- Build an object chain from a list of pairs (input notation helper). -/
def jObj : List (String × Json) → Json
  | [] => .objNil
  | (k, v) :: t => .objCons k v (jObj t)

/-- Build an array chain from a list (input notation helper). -/
def jArr : List Json → Json
  | [] => .arrNil
  | h :: t => .arrCons h (jArr t)

/-- Error diagnostics (`error(...)` calls), one constructor per call site,
carrying the interpolated data. -/
inductive Diag where
  | duplicateKey (k : String)
  | invalidJson
  | fileNotExists
  | keyRequired (k : String) (jsonName : Option String)
  | nameNotString
  | titleNotString
  | typeInvalid
  | hasGraderNotBool
  | hasManagerNotBool
  | timeLimitError
  | memoryLimitError
  | noValidatorKeys
  | validatorsNotArray (key : String) (parName : Option String)
  | validatorNotString (name : String) (num : Nat) (parName : Option String)
  | validatorFileNotFound (name : String) (cmd : String) (parName : Option String)
  | unknownPlaceholder (v : String) (placeholder : String)
  | placeholderMissing (v : String)
  | invalidData (name : String)
  | scoreInvalid (name : String)
  | samplesNonzero
  | sumOfScores (s : Int)
  | missingIndex (i : Nat)
  | solNotExists (s : String)
  | verdictInvalid (keyName : String)
  | moreThanOneModel
  | noModel
  | invalidExcept (s : String)
  | exceptUndefined (s : String)
  | notRepresented (s : String)
deriving DecidableEq, Repr

/-- Warning diagnostics (`warning(...)` calls). -/
inductive Warn where
  | nameGitMismatch
  | statementNotExists
  | statementEmpty
  | statementNoTitle
  | titleMismatch (title : String) (statementTitle : String)
  | graderOutputOnly
  | managerCommunication
  | managerOutputOnly
  | unusedValidator (f : String)
deriving DecidableEq, Repr

def valid_problem_types : List String :=
  ["Batch", "Communication", "OutputOnly", "TwoSteps"]

def model_solution_verdict : String := "model_solution"

def valid_verdicts : List String :=
  [model_solution_verdict, "correct", "time_limit", "memory_limit", "incorrect",
   "runtime_error", "failed", "time_limit_and_runtime_error", "partially_correct"]

/-- Message text of an error diagnostic, exactly as formatted by the
source (`'/'.join`, `str.format` etc.). -/
def renderDiag : Diag → String
  | .duplicateKey k => "duplicate key: " ++ k
  | .invalidJson => "invalid json"
  | .fileNotExists => "file does not exists"
  | .keyRequired k none => k ++ " is required"
  | .keyRequired k (some j) => k ++ " is required in " ++ j
  | .nameNotString => "name is not a string"
  | .titleNotString => "title is not a string"
  | .typeInvalid => "type should be one of " ++ String.intercalate "/" valid_problem_types
  | .hasGraderNotBool => "has_grader should be a boolean"
  | .hasManagerNotBool => "has_manager should be a boolean"
  | .timeLimitError => "time_limit should be a number greater or equal to 0.5"
  | .memoryLimitError => "memory_limit should be an integer that is a power of two"
  | .noValidatorKeys =>
      "Neither \"global_validators\" nor \"subtask_sensitive_validators\" is present in \"subtasks.json\"."
  | .validatorsNotArray k none => "\"" ++ k ++ "\" is not an array"
  | .validatorsNotArray k (some p) => "\"" ++ k ++ "\" is not an array in \"" ++ p ++ "\""
  | .validatorNotString n i none => n ++ " validator #" ++ toString i ++ " is not a string"
  | .validatorNotString n i (some p) =>
      n ++ " validator #" ++ toString i ++ " is not a string in \"" ++ p ++ "\""
  | .validatorFileNotFound n c none => "File not found for " ++ n ++ " validator \"" ++ c ++ "\""
  | .validatorFileNotFound n c (some p) =>
      "File not found for " ++ n ++ " validator \"" ++ c ++ "\" in \"" ++ p ++ "\""
  | .unknownPlaceholder v p =>
      "Subtask-sensitive validator \"" ++ v ++ "\" contains unknown placeholder \x7b" ++ p ++ "\x7d."
  | .placeholderMissing v =>
      "Subtask-sensitive validator \"" ++ v ++ "\" does not contain the subtask placeholder \x7bsubtask\x7d."
  | .invalidData n => "invalid data in " ++ n
  | .scoreInvalid n => "score should be a non-negative integer in subtask " ++ n
  | .samplesNonzero => "samples subtask score is non-zero"
  | .sumOfScores s => "sum of scores is " ++ toString s
  | .missingIndex i => "missing index " ++ toString i ++ " in subtask indexes"
  | .solNotExists s => s ++ " does not exists"
  | .verdictInvalid k => k ++ " verdict should be one of " ++ String.intercalate "/" valid_verdicts
  | .moreThanOneModel => "there is more than one model solutions"
  | .noModel => "there is no model solution"
  | .invalidExcept s => "invalid except format in " ++ s
  | .exceptUndefined s => "subtask \"" ++ s ++ "\" is not defined and cannot be used in except"
  | .notRepresented s => s ++ " is not represented"

/-- Lookup in an object chain (first binding wins, like a Python dict built
keeping first occurrences). -/
def jLookup : Json → String → Option Json
  | .objCons k v t, key => if k = key then some v else jLookup t key
  | _, _ => none

/-- Keys of an object chain, in order. -/
def jKeys : Json → List String
  | .objCons k _ t => k :: jKeys t
  | _ => []

/-- Number of bindings of an object chain (`len(dict)`). -/
def jObjLen : Json → Nat
  | .objCons _ _ t => jObjLen t + 1
  | _ => 0

/-- Whether a value is shaped like an object chain (a Python dict). -/
def isObjShape : Json → Bool
  | .objNil => true
  | .objCons _ _ _ => true
  | _ => false

/-- Whether a value is shaped like an array chain (a Python list). -/
def isArrShape : Json → Bool
  | .arrNil => true
  | .arrCons _ _ => true
  | _ => false

/-- Numeric view used by Python `==`: `bool`, `int` and `float` compare by
value (`1 == 1.0 == True`). -/
def pyNum : Json → Option Rat
  | .bool b => some (if b then 1 else 0)
  | .int n => some (n : Rat)
  | .float q => some q
  | _ => none

/-- Python `==` on the scalar values that can appear in hashed contexts
(set members, dict keys).  Numbers compare by value; everything else
structurally. -/
def pyEq (a b : Json) : Bool :=
  match pyNum a, pyNum b with
  | some x, some y => x == y
  | _, _ => a == b

/-- Membership in a Python set of values, via `pyEq`. -/
def memPy (x : Json) (s : List Json) : Bool := s.any (pyEq x)

/-- Python `set.add`. -/
def addPy (s : List Json) (x : Json) : List Json :=
  if memPy x s then s else s ++ [x]

/-- Values `set.add` rejects with `TypeError: unhashable type`. -/
def isUnhashable : Json → Bool
  | .arrNil => true
  | .arrCons _ _ => true
  | .objNil => true
  | .objCons _ _ _ => true
  | _ => false

/-- Python `isinstance(x, int)`; `bool` is a subclass of `int`. -/
def isInstInt : Json → Bool
  | .int _ => true
  | .bool _ => true
  | _ => false

/-- Integer value of a value passing `isInstInt` (``True`` counts as 1). -/
def pyIntVal : Json → Int
  | .int n => n
  | .bool b => if b then 1 else 0
  | _ => 0

/-- Python `str(x)` for the values interpolated into messages.  Exact for
the kinds the script interpolates (strings, ints, bools, None); for
floats and containers the rendering is approximate, and no theorem below
inspects those payloads. -/
def pyStr : Json → String
  | .str s => s
  | .int n => toString n
  | .bool b => if b then "True" else "False"
  | .null => "None"
  | .float q => toString q
  | .arrNil => "[]"
  | .arrCons _ _ => "[...]"
  | .objNil => "\x7b\x7d"
  | .objCons _ _ _ => "\x7b...\x7d"

/-- Whether `needle` occurs as a contiguous run in `hay` (Python
`needle in hay` for strings / the `not in` test on the substituted
validator command line). -/
def containsSeq (needle : List Char) : List Char → Bool
  | [] => needle.isEmpty
  | c :: t => needle.isPrefixOf (c :: t) || containsSeq needle t

/-- Python substring test `needle in hay`. -/
def strContainsSub (needle hay : String) : Bool :=
  containsSeq needle.toList hay.toList

/-- Python `key in data` for a string key: dict key lookup, list
membership, substring test for strings; `TypeError` otherwise. -/
def pyContainsE (data : Json) (key : String) : Except PyExn Bool :=
  match data with
  | .objNil => .ok false
  | .objCons _ _ _ => .ok (jLookup data key).isSome
  | .arrNil => .ok false
  | .arrCons h t =>
      match pyContainsE t key with
      | .ok b => .ok (pyEq (.str key) h || b)
      | .error e => .error e
  | .str s => .ok (strContainsSub key s)
  | _ => .error .typeError

/-- Python `data[key]` for a string key (`KeyError` when a dict lacks the
key, `TypeError` on non-dicts: `None`, lists, strings and numbers all
raise `TypeError` when subscripted with a string). -/
def pySubscriptStr (data : Json) (key : String) : Except PyExn Json :=
  match data with
  | .objNil => .error (.keyError key)
  | .objCons _ _ _ =>
      match jLookup data key with
      | some v => .ok v
      | none => .error (.keyError key)
  | _ => .error .typeError

/-- Python `data.get(key, default)` (`AttributeError` on non-dicts). -/
def pyDictGetDefault (data : Json) (key : String) (dflt : Json) : Except PyExn Json :=
  match data with
  | .objNil => .ok dflt
  | .objCons _ _ _ => .ok ((jLookup data key).getD dflt)
  | _ => .error .attributeError

/-!  The duplicate-key hook.  `json.load(f, object_pairs_hook=error_on_duplicate_keys)`
parses every JSON object into its ordered key/value pairs and folds them
through `error_on_duplicate_keys`, which keeps the first occurrence of
each key and records an error for every later occurrence.  Inner objects
are folded before outer ones; `hookGo` traverses a raw parse tree doing
exactly that.  `chainMode = false` processes a value; `chainMode = true`
processes the tail of an object chain with `seen` the keys already kept.
In chain mode the result triple is (processed chain, diagnostics from
nested values, duplicate-key diagnostics of this object); the object's
duplicate-key diagnostics are emitted after all nested diagnostics, as
the hook runs only once the object's pairs are fully parsed. -/
def hookGo (seen : List String) (chainMode : Bool) (j : Json) : Json × List Diag × List Diag :=
  match chainMode, j with
  | false, .arrCons h t =>
      let rh := hookGo [] false h
      let rt := hookGo [] false t
      (.arrCons rh.1 rt.1, rh.2.1 ++ rt.2.1, [])
  | false, .objCons k v t =>
      let rv := hookGo [] false v
      let rt := hookGo [k] true t
      (.objCons k rv.1 rt.1, rv.2.1 ++ rt.2.1 ++ rt.2.2, [])
  | false, other => (other, [], [])
  | true, .objCons k v t =>
      let rv := hookGo [] false v
      if seen.contains k then
        let rt := hookGo seen true t
        (rt.1, rv.2.1 ++ rt.2.1, .duplicateKey k :: rt.2.2)
      else
        let rt := hookGo (seen ++ [k]) true t
        (.objCons k rv.1 rt.1, rv.2.1 ++ rt.2.1, rt.2.2)
  | true, other => (other, [], [])

/-- Result of parsing a JSON document with the duplicate-key hook: the
de-duplicated value and the duplicate-key errors, in emission order. -/
def applyHook (j : Json) : Json × List Diag :=
  let r := hookGo [] false j
  (r.1, r.2.1 ++ r.2.2)

/-- Whether a raw (pre-hook) parse tree repeats a key inside some object.
Mirrors the two modes of `hookGo`: with `chainMode = false` it asks
whether the value contains a duplicate key at any level; with
`chainMode = true` it scans an object chain whose already-kept keys are
`seen`. -/
def dupGo (seen : List String) (chainMode : Bool) (j : Json) : Bool :=
  match chainMode, j with
  | false, .arrCons h t => dupGo [] false h || dupGo [] false t
  | false, .objCons k v t => dupGo [] false v || dupGo [k] true t
  | false, _ => false
  | true, .objCons k v t => seen.contains k || dupGo [] false v || dupGo (seen ++ [k]) true t
  | true, _ => false

/-- A JSON document contains a duplicate key at some level. -/
def hasDupKey (j : Json) : Bool := dupGo [] false j

/-- The contents found at a path: missing file (`IOError`), malformed
JSON (`ValueError`), or a raw parse tree (with possible duplicate keys,
resolved by the hook). -/
inductive FileContent where
  | missing
  | invalid
  | json (raw : Json)
deriving DecidableEq, Repr

/-- `check_keys(data, required_keys, json_name)`: one error per missing
key; the returned flag is true iff all keys were found (the source raises
`KeyError` when it is false).  `key in data` can itself raise on
non-container data. -/
def check_keys (data : Json) (required : List String) (jsonName : Option String) :
    Except PyExn (List Diag × Bool) :=
  match required with
  | [] => .ok ([], true)
  | k :: rest =>
      match pyContainsE data k with
      | .error e => .error e
      | .ok true => check_keys data rest jsonName
      | .ok false =>
          match check_keys data rest jsonName with
          | .error e => .error e
          | .ok (ds, _) => .ok (.keyRequired k jsonName :: ds, false)

/-- `load_data(json_file, required_keys)`: parse with the duplicate-key
hook, then check required keys; returns `none` (with diagnostics) on a
missing file, malformed JSON, or a missing required key.  Note that
duplicate keys only record errors; they do not make the load fail. -/
def load_data (file : FileContent) (required : List String) :
    Except PyExn (Option Json × List Diag) :=
  match file with
  | .missing => .ok (none, [.fileNotExists])
  | .invalid => .ok (none, [.invalidJson])
  | .json raw =>
      let r := applyHook raw
      match check_keys r.1 required none with
      | .error e => .error e
      | .ok (ds, allFound) =>
          if allFound then .ok (some r.1, r.2 ++ ds) else .ok (none, r.2 ++ ds)

/-- `is_ignored(file_name)`. -/
def is_ignored (f : String) : Bool :=
  List.isSuffixOf ".exe".toList f.toList || List.isSuffixOf ".class".toList f.toList ||
    List.isSuffixOf "~".toList f.toList

/-- `get_list_of_files(directory)` applied to a directory listing. -/
def get_list_of_files (listing : List String) : List String :=
  listing.filter (fun f => !is_ignored f)

/-- First-occurrence de-duplication with an already-seen accumulator. -/
def dedupGo (seen : List String) : List String → List String
  | [] => []
  | x :: t => if seen.contains x then dedupGo seen t else x :: dedupGo (seen ++ [x]) t

/-- First-occurrence de-duplication, the order this embedding fixes for
Python's unordered `set(...)`. -/
def dedupFirst (l : List String) : List String := dedupGo [] l

/-- `list(set(get_list_of_files(validator/)) - {testlib.h, Makefile})`. -/
def validatorFilesOf (listing : List String) : List String :=
  (dedupFirst (get_list_of_files listing)).filter
    (fun f => f ≠ "testlib.h" && f ≠ "Makefile")

/-- Python whitespace for `str.strip()`. -/
def isPyWS (c : Char) : Bool :=
  c = ' ' || c = '\t' || c = '\n' || c = '\r' || c = Char.ofNat 11 || c = Char.ofNat 12

/-- Python `str.strip()`. -/
def pyStrip (s : String) : String :=
  String.mk (((s.toList.dropWhile isPyWS).reverse.dropWhile isPyWS).reverse)

/-- Environment of `verify_problem`: the web-terminal flag, the result of
the git remote-basename subprocess (`none` means the command failed, i.e.
`CalledProcessError`), and the lines of `statement/index.md` (`none`
means the file does not exist). -/
structure PEnv where
  webTerminal : Option String
  gitBasename : Option String
  statement : Option (List String)
deriving DecidableEq, Repr

/-- The `name` checks: not-a-string error, else (outside web-terminal
mode) the git project-name comparison warning. -/
def nameCheck (nameV : Json) (env : PEnv) : Except PyExn (List Diag × List Warn) :=
  match nameV with
  | .str s =>
      if env.webTerminal ≠ some "true" then
        match env.gitBasename with
        | none => .error .calledProcessError
        | some g => .ok ([], if s ≠ g then [.nameGitMismatch] else [])
      else .ok ([], [])
  | _ => .ok ([.nameNotString], [])

/-- The statement-file block of `verify_problem` (warnings only): first
non-blank line must start with `#` and, with all `#` removed and
stripped, equal the title. -/
def statementWarns (stmt : Option (List String)) (titleV : Json) : List Warn :=
  match stmt with
  | none => [.statementNotExists]
  | some lines =>
      match lines.find? (fun l => pyStrip l ≠ "") with
      | none => [.statementEmpty]
      | some fl =>
          match (pyStrip fl).toList with
          | '#' :: _ =>
              let st := pyStrip (String.mk (fl.toList.filter (fun c => c ≠ '#')))
              if Json.str st ≠ titleV then [.titleMismatch (pyStr titleV) st] else []
          | _ => [.statementNoTitle]

/-- The `type` check. -/
def typeCheck (typeV : Json) : List Diag :=
  match typeV with
  | .str s => if valid_problem_types.contains s then [] else [.typeInvalid]
  | _ => [.typeInvalid]

/-- The optional `has_grader` checks. -/
def hasGraderCheck (p : Json) : Except PyExn (List Diag × List Warn) := do
  let c ← pyContainsE p "has_grader"
  if c then
    let v ← pySubscriptStr p "has_grader"
    match v with
    | .bool b =>
        let t ← pySubscriptStr p "type"
        pure ([], if t == .str "OutputOnly" && b then [.graderOutputOnly] else [])
    | _ => pure ([.hasGraderNotBool], [])
  else
    pure ([], [])

/-- The optional `has_manager` checks. -/
def hasManagerCheck (p : Json) : Except PyExn (List Diag × List Warn) := do
  let c ← pyContainsE p "has_manager"
  if c then
    let v ← pySubscriptStr p "has_manager"
    match v with
    | .bool b =>
        let t ← pySubscriptStr p "type"
        pure ([],
          (if t == .str "Communication" && !b then [.managerCommunication] else []) ++
          (if t == .str "OutputOnly" && b then [.managerOutputOnly] else []))
    | _ => pure ([.hasManagerNotBool], [])
  else
    pure ([], [])

/-- The literal 0.5, as an already-normalised rational (so that closed
terms reduce). -/
def half : Rat := ⟨1, 2, by norm_num, by norm_num⟩

/-- The `time_limit` check: `not isinstance(_, float) or _ < 0.5`.  Note
this is Python `float`: a JSON integer literal parses to `int` and fails
the `isinstance` test. -/
def timeLimitCheck (tl : Json) : List Diag :=
  match tl with
  | .float q => if q < half then [.timeLimitError] else []
  | _ => [.timeLimitError]

/-- The `memory_limit` check:
`not isinstance(m, int) or m < 1 or m & (m - 1) != 0`. -/
def memCheck (m : Json) : List Diag :=
  if !isInstInt m then [.memoryLimitError]
  else if pyIntVal m < 1 then [.memoryLimitError]
  else if Int.land (pyIntVal m) (pyIntVal m - 1) ≠ 0 then [.memoryLimitError]
  else []

/-- `verify_problem()`: load `problem.json` with its five required keys
and run the field checks in source order.  Returns the loaded data (or
`none`), the errors and the warnings this stage appends. -/
def verify_problem (file : FileContent) (env : PEnv) :
    Except PyExn (Option Json × List Diag × List Warn) := do
  let r0 ← load_data file ["name", "title", "type", "time_limit", "memory_limit"]
  match r0 with
  | (none, d0) => return (none, d0, [])
  | (some p, d0) => do
      let nameV ← pySubscriptStr p "name"
      let rName ← nameCheck nameV env
      let titleV ← pySubscriptStr p "title"
      let dTitle : List Diag := match titleV with | .str _ => [] | _ => [.titleNotString]
      let wStmt := statementWarns env.statement titleV
      let typeV ← pySubscriptStr p "type"
      let dType := typeCheck typeV
      let rHG ← hasGraderCheck p
      let rHM ← hasManagerCheck p
      let tlV ← pySubscriptStr p "time_limit"
      let dTL := timeLimitCheck tlV
      let mV ← pySubscriptStr p "memory_limit"
      let dMem := memCheck mV
      return (some p, d0 ++ rName.1 ++ dTitle ++ dType ++ rHG.1 ++ rHM.1 ++ dTL ++ dMem,
              rName.2 ++ wStmt ++ rHG.2 ++ rHM.2)

def k_glob : String := "global_validators"

def k_sub : String := "subtask_sensitive_validators"

def subtask_placeholder_var : String := "subtask"

def subtask_placeholder_substitute : String := "___SUBTASK_PLACEHOLDER_SUBSTITUTE___"

def lbrace : Char := Char.ofNat 123

def rbrace : Char := Char.ofNat 125

/-- Digits of an index, width or precision, as a number. -/
def digitsToNat (cs : List Char) : Nat :=
  cs.foldl (fun a c => a * 10 + (c.toNat - 48)) 0

/-- `PY_SSIZE_T_MAX`: a wider width, precision or index is the
"Too many decimal digits" `ValueError`. -/
def maxSsize : Nat := 2 ^ 63 - 1

/-- The scanner of a replacement field\'s name (CPython `parse_field`):
the name runs to `!`, `:` or the closing brace; a `[...]` item access is
skipped opaquely (its contents belong to the name); an opening brace in
the name, or the end of the string, is a `ValueError` (`none`). -/
def fnScan (acc : List Char) (inBr : Bool) : List Char → Option (List Char × Char × List Char)
  | [] => none
  | c :: rest =>
      if inBr then
        if c = ']' then fnScan (c :: acc) false rest
        else fnScan (c :: acc) true rest
      else if c = lbrace then none
      else if c = '[' then fnScan (c :: acc) true rest
      else if c = rbrace || c = ':' || c = '!' then some (acc.reverse, c, rest)
      else fnScan (c :: acc) false rest

/-- The scanner of the format-spec part (CPython `parse_field`): nested
brace pairs are counted at parse time; the spec ends at the brace
matching the field\'s opening one, and an unmatched opening brace is a
`ValueError` (`none`). -/
def specScan (acc : List Char) (count : Nat) : List Char → Option (List Char × List Char)
  | [] => none
  | c :: rest =>
      if c = lbrace then specScan (c :: acc) (count + 1) rest
      else if c = rbrace then
        if count = 1 then some (acc.reverse, rest)
        else specScan (c :: acc) (count - 1) rest
      else specScan (c :: acc) count rest

/-- CPython `parse_field`: split a replacement field (the text after its
opening brace) into field name, optional conversion character and format
spec.  The conversion is the single character after `!` and must be
followed by `:` or the closing brace; a missing conversion character or
an unterminated field is a `ValueError` (`none`). -/
def parseField (cs : List Char) :
    Option (List Char × Option Char × List Char × List Char) :=
  match fnScan [] false cs with
  | none => none
  | some (name, term, rest) =>
      if term = '!' then
        match rest with
        | [] => none
        | cv :: rest2 =>
            match rest2 with
            | [] => none
            | c2 :: rest3 =>
                if c2 = rbrace then some (name, some cv, [], rest3)
                else if c2 = ':' then
                  match specScan [] 1 rest3 with
                  | none => none
                  | some (spec, rest4) => some (name, some cv, spec, rest4)
                else none
      else if term = ':' then
        match specScan [] 1 rest with
        | none => none
        | some (spec, rest2) => some (name, none, spec, rest2)
      else some (name, none, [], rest)

/-- CPython `get_field_object` walking the attribute/item accessors of a
field name over the current (string) object: `mode = some acc` is inside
a `[...]` index.  An empty attribute or index is a `ValueError`, any
attribute access on a string an `AttributeError`, a numeric index reads
a character (`IndexError` out of range, `ValueError` over
`PY_SSIZE_T_MAX`), a non-numeric index on a string a `TypeError`, and a
character that is neither `.` nor `[` after an index a `ValueError`. -/
def accGo (obj : List Char) (mode : Option (List Char)) :
    List Char → Except PyExn (List Char)
  | [] =>
      match mode with
      | none => .ok obj
      | some _ => .error .valueError
  | c :: rest =>
      match mode with
      | some acc =>
          if c = ']' then
            let idx := acc.reverse
            if idx.isEmpty then .error .valueError
            else if idx.all Char.isDigit then
              if digitsToNat idx > maxSsize then .error .valueError
              else
                match obj.get? (digitsToNat idx) with
                | some ch => accGo [ch] none rest
                | none => .error .indexError
            else .error .typeError
          else accGo obj (some (c :: acc)) rest
      | none =>
          if c = '.' then
            match rest with
            | [] => .error .valueError
            | c2 :: _ =>
                if c2 = '.' || c2 = '[' then .error .valueError
                else .error .attributeError
          else if c = '[' then accGo obj (some []) rest
          else .error .valueError

/-- CPython `get_field_object` for `format(subtask=SENTINEL)`: an empty
or all-digit first component is positional (no positional arguments are
passed, so `IndexError`; over-wide digits are the "Too many decimal
digits" `ValueError`), a keyword other than `subtask` raises `KeyError`
with that name, and the accessors then run on the sentinel. -/
def lookupField (name : List Char) : Except PyExn (List Char) :=
  let first := name.takeWhile (fun c => c ≠ '.' && c ≠ '[')
  if first.isEmpty then .error .indexError
  else if first.all Char.isDigit then
    if digitsToNat first > maxSsize then .error .valueError else .error .indexError
  else if first ≠ subtask_placeholder_var.toList then .error (.keyError (String.mk first))
  else accGo subtask_placeholder_substitute.toList none (name.drop first.length)

def squote : Char := Char.ofNat 39

/-- The conversions `!s`, `!r` and `!a` on the looked-up value — always
a substring of the all-ASCII-printable sentinel here, so `repr` and
`ascii` wrap it in single quotes; any other conversion character is the
"Unknown conversion specifier" `ValueError`. -/
def applyConv (obj : List Char) : Option Char → Except PyExn (List Char)
  | none => .ok obj
  | some c =>
      if c = 's' then .ok obj
      else if c = 'r' || c = 'a' then .ok (squote :: (obj ++ [squote]))
      else .error .valueError

def isAlign (c : Char) : Bool := c = '<' || c = '>' || c = '^' || c = '='

/-- `str.__format__` of the field value: parse
`[[fill]align][sign][z][#][0][width][,][_][.precision][type]` and apply
it.  Everything a string rejects — a sign, `z`, `#`, `=` alignment,
grouping, a type other than `s`, trailing characters, a missing
precision, an over-wide width or precision — is a `ValueError`; the
`0` flag sets the fill without changing the (default `<`) alignment. -/
def applySpec (obj spec : List Char) : Except PyExn (List Char) :=
  let fa : Char × Char × Bool × List Char :=
    match spec with
    | a :: b :: r =>
        if isAlign b then (a, b, true, r)
        else if isAlign a then (' ', a, false, b :: r)
        else (' ', '<', false, spec)
    | [a] => if isAlign a then (' ', a, false, []) else (' ', '<', false, spec)
    | [] => (' ', '<', false, [])
  match fa with
  | (fill0, align, fillGiven, rest1) =>
      let signP := match rest1 with
                   | c :: _ => c == '+' || c == '-' || c == ' '
                   | [] => false
      let rest2 := if signP then rest1.tail else rest1
      let zP := match rest2 with | c :: _ => c == 'z' | [] => false
      let rest3 := if zP then rest2.tail else rest2
      let altP := match rest3 with | c :: _ => c == '#' | [] => false
      let rest4 := if altP then rest3.tail else rest3
      let zeroP := !fillGiven && (match rest4 with | c :: _ => c == '0' | [] => false)
      let fill := if zeroP then '0' else fill0
      let rest5 := if zeroP then rest4.tail else rest4
      let wd := rest5.takeWhile Char.isDigit
      let width := digitsToNat wd
      let rest6 := rest5.drop wd.length
      let commaP := match rest6 with | c :: _ => c == ',' | [] => false
      let rest7 := if commaP then rest6.tail else rest6
      let undP := match rest7 with | c :: _ => c == '_' | [] => false
      let rest8 := if undP then rest7.tail else rest7
      match (match rest8 with
             | c :: r9 =>
                 if c = '.' then
                   let pd := r9.takeWhile Char.isDigit
                   if pd.isEmpty then none
                   else some (some (digitsToNat pd), r9.drop pd.length)
                 else some (none, rest8)
             | [] => some (none, ([] : List Char))) with
      | none => .error .valueError
      | some (prec, rest10) =>
          let typeOk := match rest10 with
                        | [] => true
                        | [t] => t = 's'
                        | _ => false
          if !typeOk then .error .valueError
          else if signP || zP || altP || commaP || undP || align = '=' then .error .valueError
          else if width > maxSsize then .error .valueError
          else if (match prec with | some p => decide (p > maxSsize) | none => false) then
            .error .valueError
          else
            let s := match prec with | some p => obj.take p | none => obj
            let pad := width - s.length
            if align = '>' then .ok (List.replicate pad fill ++ s)
            else if align = '^' then
              .ok (List.replicate (pad / 2) fill ++ s ++ List.replicate (pad - pad / 2) fill)
            else .ok (s ++ List.replicate pad fill)

/-- CPython `build_string`/`do_markup` over the template: doubled braces
are literal braces, a lone closing (or trailing opening) brace is a
`ValueError`; each replacement field is parsed, its value looked up, the
conversion applied, a spec containing a brace expanded one level (any
deeper nesting is the "Max string recursion exceeded" `ValueError`) and
the formatted value inserted.  `fuel` only bounds the recursion: at
`length + 1` — what every caller passes — it cannot run out, since every
recursive call is on a strictly shorter suffix or inner spec. -/
def fmtRun : Nat → Nat → List Char → Except PyExn (List Char)
  | 0, _, _ => .error .valueError
  | _ + 1, _, [] => .ok []
  | fuel + 1, depth, c :: rest =>
      if c = lbrace then
        match rest with
        | [] => .error .valueError
        | c2 :: rest2 =>
            if c2 = lbrace then
              match fmtRun fuel depth rest2 with
              | .ok out => .ok (lbrace :: out)
              | .error e => .error e
            else
              match parseField rest with
              | none => .error .valueError
              | some (name, conv, spec, rest3) =>
                  match lookupField name with
                  | .error e => .error e
                  | .ok obj =>
                      match applyConv obj conv with
                      | .error e => .error e
                      | .ok obj2 =>
                          match (if spec.contains lbrace then
                                   if depth ≤ 1 then .error .valueError
                                   else fmtRun fuel (depth - 1) spec
                                 else .ok spec) with
                          | .error e => .error e
                          | .ok spec2 =>
                              match applySpec obj2 spec2 with
                              | .error e => .error e
                              | .ok ins =>
                                  match fmtRun fuel depth rest3 with
                                  | .ok out => .ok (ins ++ out)
                                  | .error e => .error e
      else if c = rbrace then
        match rest with
        | [] => .error .valueError
        | c2 :: rest2 =>
            if c2 = rbrace then
              match fmtRun fuel depth rest2 with
              | .ok out => .ok (rbrace :: out)
              | .error e => .error e
            else .error .valueError
      else
        match fmtRun fuel depth rest with
        | .ok out => .ok (c :: out)
        | .error e => .error e

/-- `s.format(subtask=subtask_placeholder_substitute)`: CPython 3.11
`str.format` with the single keyword argument `subtask`. -/
def pyFormatSubtask (s : String) : Except PyExn String :=
  match fmtRun (s.toList.length + 1) 2 s.toList with
  | .ok cs => .ok (String.mk cs)
  | .error e => .error e

/-- One iteration of the subtask-sensitive placeholder loop: format the
entry with the unique substitute; a `KeyError` (unknown placeholder) is
caught and reported; if the substitute does not occur in the result the
placeholder-missing error is reported.  Non-string entries have no
`format` method (`AttributeError`, uncaught); other exceptions
(`ValueError` from malformed templates) also propagate. -/
def placeholderCheck (entry : Json) : Except PyExn (List Diag) :=
  match entry with
  | .str s =>
      match pyFormatSubtask s with
      | .error (.keyError name) => .ok [.unknownPlaceholder s name]
      | .error e => .error e
      | .ok substituted =>
          if !strContainsSub subtask_placeholder_substitute substituted then
            .ok [.placeholderMissing s]
          else .ok []
  | _ => .error .attributeError

/-- The placeholder loop over the characters of a string value (Python
iterates a string as its one-character substrings). -/
def placeholderLoopChars : List Char → Except PyExn (List Diag)
  | [] => .ok []
  | c :: t =>
      match placeholderCheck (.str (String.mk [c])) with
      | .error e => .error e
      | .ok ds =>
          match placeholderLoopChars t with
          | .error e => .error e
          | .ok ds2 => .ok (ds ++ ds2)

/-- `for v in subtasks_data.get(k_sub, []): ...` — the placeholder loop
over whatever value the key holds (list elements, dict keys, string
characters; `TypeError` for non-iterables). -/
def placeholderLoop : Json → Except PyExn (List Diag)
  | .arrNil => .ok []
  | .arrCons h t =>
      match placeholderCheck h with
      | .error e => .error e
      | .ok ds =>
          match placeholderLoop t with
          | .error e => .error e
          | .ok ds2 => .ok (ds ++ ds2)
  | .objNil => .ok []
  | .objCons k _ t =>
      match placeholderCheck (.str k) with
      | .error e => .error e
      | .ok ds =>
          match placeholderLoop t with
          | .error e => .error e
          | .ok ds2 => .ok (ds ++ ds2)
  | .str s => placeholderLoopChars s.toList
  | _ => .error .typeError

/-- `validator_cmd_line.split(' ')[0]`. -/
def firstToken (s : String) : String :=
  String.mk (s.toList.takeWhile (fun c => c ≠ ' '))

/-- The enumeration loop of `check_validator_key` (`num` is the 1-based
position used in messages); threads the `used_validators` set. -/
def cvkItems (vf : List String) (name : String) (parName : Option String) (num : Nat)
    (used : List String) : Json → List String × List Diag
  | .arrCons e t =>
      match e with
      | .str s =>
          let cmd := firstToken s
          if cmd.toList.contains '.' then
            if vf.contains cmd then
              let used' := if used.contains cmd then used else used ++ [cmd]
              cvkItems vf name parName (num + 1) used' t
            else
              let r := cvkItems vf name parName (num + 1) used t
              (r.1, .validatorFileNotFound name cmd parName :: r.2)
          else cvkItems vf name parName (num + 1) used t
      | _ =>
          let r := cvkItems vf name parName (num + 1) used t
          (r.1, .validatorNotString name num parName :: r.2)
  | _ => (used, [])

/-- `check_validator_key(parent, key, name, parName)`: skip when the key
is absent; non-list values are an error; list entries must be strings and
dotted commands must name on-disk validator files, which are then marked
used. -/
def check_validator_key (vf : List String) (parent : Json) (key name : String)
    (parName : Option String) (used : List String) :
    Except PyExn (List String × List Diag) := do
  let c ← pyContainsE parent key
  if !c then pure (used, [])
  else do
    let vl ← pySubscriptStr parent key
    if !isArrShape vl then pure (used, [.validatorsNotArray key parName])
    else pure (cvkItems vf name parName 1 used vl)

/-- The `hasSamples` block of `verify_subtasks`:
`try: if problem['type'] != 'OutputOnly': check_keys(subtasks, ['samples']); hasSamples = True
except KeyError: pass`.
When `verify_problem` returned `None`, `problem['type']` raises
`TypeError` (`NoneType` is not subscriptable), which the `except
KeyError` does not catch.  A `KeyError` (missing `type`, or the one
`check_keys` raises after recording `samples is required`) is caught,
leaving `hasSamples` false but keeping the recorded error. -/
def samplesBlock (problem : Option Json) (subtasks : Json) :
    Except PyExn (Bool × List Diag) :=
  match problem with
  | none => .error .typeError
  | some p =>
      if !isObjShape p then .error .typeError
      else
        match jLookup p "type" with
        | none => .ok (false, [])
        | some t =>
            if t = .str "OutputOnly" then .ok (false, [])
            else
              match pyContainsE subtasks "samples" with
              | .error e => .error e
              | .ok true => .ok (true, [])
              | .ok false => .ok (false, [.keyRequired "samples" none])

/-- State of the per-subtask loop: the `indexes` set, the score sum, the
`used_validators` set and the appended errors. -/
structure SubSt where
  indexes : List Json
  scoreSum : Int
  used : List String
  diags : List Diag
deriving DecidableEq, Repr

/-- The score checks of one subtask entry: the errors and the amount
added to `score_sum`. -/
def scoreDiags (name : String) (score : Json) : List Diag × Int :=
  if !isInstInt score || pyIntVal score < 0 then ([.scoreInvalid name], 0)
  else if name = "samples" then
    (if pyIntVal score ≠ 0 then [.samplesNonzero] else [], 0)
  else ([], pyIntVal score)

/-- One iteration of `for name, data in subtasks.items()`: the dict/key
checks, `indexes.add(data['index'])` (`TypeError` on unhashable
indices), the score checks, and the per-subtask validator list. -/
def subtaskStep (vf : List String) (st : SubSt) (name : String) (data : Json) :
    Except PyExn SubSt :=
  if !isObjShape data then
    .ok { st with diags := st.diags ++ [.invalidData name] }
  else
    match jLookup data "index", jLookup data "score" with
    | none, none =>
        .ok { st with diags :=
                st.diags ++ [.keyRequired "index" (some name), .keyRequired "score" (some name)] }
    | none, some _ =>
        .ok { st with diags := st.diags ++ [.keyRequired "index" (some name)] }
    | some _, none =>
        .ok { st with diags := st.diags ++ [.keyRequired "score" (some name)] }
    | some idx, some score =>
        if isUnhashable idx then .error .typeError
        else
          let indexes := addPy st.indexes idx
          let sd := scoreDiags name score
          match check_validator_key vf data "validators" "subtask" (some name) st.used with
          | .error e => .error e
          | .ok (used', dv) =>
              .ok { indexes := indexes, scoreSum := st.scoreSum + sd.2,
                    used := used', diags := st.diags ++ sd.1 ++ dv }

/-- The whole per-subtask loop (`AttributeError` when the `subtasks`
value is not a dict). -/
def subtasksLoop (vf : List String) (st : SubSt) : Json → Except PyExn SubSt
  | .objCons name data t =>
      match subtaskStep vf st name data with
      | .error e => .error e
      | .ok st2 => subtasksLoop vf st2 t
  | .objNil => .ok st
  | _ => .error .attributeError

/-- Warnings for validator files never marked used (Python iterates the
set difference in unspecified order; first-occurrence order here). -/
def unusedWarns (vf used : List String) : List Warn :=
  (vf.filter (fun f => !used.contains f)).map .unusedValidator

/-- `for i in range(len(subtasks)): if i + (0 if hasSamples else 1) not
in indexes: error('missing index i ...')`.  Note the message names the
loop counter `i`, not `i + offset`. -/
def missingIndexDiags (indexes : List Json) (offset : Nat) (len : Nat) : List Diag :=
  (List.range len).filterMap
    (fun i => if memPy (.int ((i + offset : Nat) : Int)) indexes then none
              else some (.missingIndex i))

/-- `verify_subtasks()`.  `problem` is the value the earlier
`verify_problem()` stage stored in the global; `validatorListing` the
directory listing of `validator/`.  Returns the `subtasks` dict (or
`none` on the early exits) with the errors and warnings appended.  The
two validator-key containment tests cannot raise for any value that
passed `load_data`'s required-key check, so evaluating both (rather than
short-circuiting as `and` does) is faithful. -/
def verify_subtasks (problem : Option Json) (validatorListing : List String)
    (file : FileContent) : Except PyExn (Option Json × List Diag × List Warn) := do
  let r0 ← load_data file ["subtasks"]
  match r0 with
  | (none, d0) => return (none, d0, [])
  | (some sd, d0) => do
      let hasGlob ← pyContainsE sd k_glob
      let hasSub ← pyContainsE sd k_sub
      if !hasGlob && !hasSub then
        return (none, d0 ++ [.noValidatorKeys], [])
      else do
        let vf := validatorFilesOf validatorListing
        let r1 ← check_validator_key vf sd k_glob "global" none []
        let r2 ← check_validator_key vf sd k_sub "subtask-sensitive" none r1.1
        let sv ← pyDictGetDefault sd k_sub .arrNil
        let d3 ← placeholderLoop sv
        let subtasks ← pySubscriptStr sd "subtasks"
        let r4 ← samplesBlock problem subtasks
        let stF ← subtasksLoop vf { indexes := [], scoreSum := 0, used := r2.1, diags := [] }
                    subtasks
        let dSum : List Diag := if stF.scoreSum ≠ 100 then [.sumOfScores stF.scoreSum] else []
        let dMiss := missingIndexDiags stF.indexes (if r4.1 then 0 else 1) (jObjLen subtasks)
        return (some subtasks,
                d0 ++ r1.2 ++ r2.2 ++ d3 ++ r4.2 ++ stF.diags ++ dSum ++ dMiss,
                unusedWarns vf stF.used)

/-- `verify_verdict(verdict, key_name)`: membership in the closed verdict
enumeration; returns the flag and the error, if any. -/
def verify_verdict (verdict : Json) (keyName : String) : Bool × List Diag :=
  match verdict with
  | .str s =>
      if valid_verdicts.contains s then (true, []) else (false, [.verdictInvalid keyName])
  | _ => (false, [.verdictInvalid keyName])

/-- The loop over an `except` mapping: each key must name a defined
subtask, and each override verdict is validated.  Only called on dicts
(the non-dict case was already reported). -/
def exceptLoop (subtasks : Json) (solutionName : String) : Json → Except PyExn (List Diag)
  | .objCons k v t => do
      let c ← pyContainsE subtasks k
      let here : List Diag :=
        if !c then [.exceptUndefined k]
        else (verify_verdict v (solutionName ++ ".except." ++ k)).2
      let rest ← exceptLoop subtasks solutionName t
      pure (here ++ rest)
  | _ => pure []

/-- The `except` block of one solution entry (`'except' in data` is the
Python containment test, so it can raise on non-container entries). -/
def solutionExceptPart (subtasks : Json) (solutionName : String) (data : Json) :
    Except PyExn (List Diag) := do
  let c ← pyContainsE data "except"
  if !c then pure []
  else do
    let exceptions ← pySubscriptStr data "except"
    if !isObjShape exceptions then pure [.invalidExcept solutionName]
    else exceptLoop subtasks solutionName exceptions

/-- State of the solutions loop: the remaining on-disk `solution_files`
set, the `model_solution` variable and the appended errors. -/
structure SolSt where
  files : List String
  model : Option Json
  diags : List Diag
deriving DecidableEq, Repr

/-- One iteration of `for solution in solutions`: presence on disk,
removal from the remaining-file set, the `verdict` checks, the
model-solution bookkeeping and the `except` block.  `files` is kept
de-duplicated, so removing every copy of the name models `set.remove`;
an unhashable item (a list or dict) raises `TypeError` on the
set-membership test. -/
def solutionStep (solutions subtasks : Json) (st : SolSt) (item : Json) :
    Except PyExn SolSt :=
  match item with
  | .str sname =>
      if !st.files.contains sname then
        .ok { st with diags := st.diags ++ [.solNotExists sname] }
      else
        let files2 := st.files.filter (fun f => f ≠ sname)
        match pySubscriptStr solutions sname with
        | .error e => .error e
        | .ok data =>
            match pyContainsE data "verdict" with
            | .error e => .error e
            | .ok false =>
                .ok { st with
                        files := files2
                        diags := st.diags ++ [.keyRequired "verdict" (some sname)] }
            | .ok true =>
                match pySubscriptStr data "verdict" with
                | .error e => .error e
                | .ok v =>
                    let vv := verify_verdict v sname
                    let isModel := vv.1 && v == .str model_solution_verdict
                    let dupModel : List Diag :=
                      if isModel && st.model.isSome then [.moreThanOneModel] else []
                    let model2 := if isModel then some item else st.model
                    match solutionExceptPart subtasks sname data with
                    | .error e => .error e
                    | .ok dExc =>
                        .ok { files := files2, model := model2,
                              diags := st.diags ++ vv.2 ++ dupModel ++ dExc }
  | other =>
      if isUnhashable other then .error .typeError
      else .ok { st with diags := st.diags ++ [.solNotExists (pyStr other)] }

/-- The items `for solution in solutions` iterates: dict keys, list
elements or string characters (`TypeError` otherwise). -/
def solItems : Json → Except PyExn (List Json)
  | .objNil => .ok []
  | .objCons k _ t => do
      let rest ← solItems t
      pure (.str k :: rest)
  | .arrNil => .ok []
  | .arrCons h t => do
      let rest ← solItems t
      pure (h :: rest)
  | .str s => .ok (s.toList.map (fun c => .str (String.mk [c])))
  | _ => .error .typeError

/-- The whole solutions loop. -/
def solLoop (solutions subtasks : Json) (st : SolSt) : List Json → Except PyExn SolSt
  | [] => .ok st
  | i :: t =>
      match solutionStep solutions subtasks st i with
      | .error e => .error e
      | .ok st2 => solLoop solutions subtasks st2 t

/-- `verify_solutions(subtasks)`: load `solutions.json` (no required
keys); short-circuit when either it or the subtask set is missing;
otherwise run the loop, the no-model check and the not-represented
sweep.  `solutionListing` is the directory listing of `solution/`. -/
def verify_solutions (subtasks : Option Json) (solutionListing : List String)
    (file : FileContent) : Except PyExn (Option Json × List Diag × List Warn) := do
  let r0 ← load_data file []
  match r0 with
  | (none, d0) => return (none, d0, [])
  | (some sols, d0) =>
      match subtasks with
      | none => return (some sols, d0, [])
      | some stk => do
          let files0 := dedupFirst (get_list_of_files solutionListing)
          let items ← solItems sols
          let stF ← solLoop sols stk { files := files0, model := none, diags := [] } items
          let dNoModel : List Diag := if stF.model.isNone then [.noModel] else []
          let dRest := stF.files.map Diag.notRepresented
          return (some sols, d0 ++ stF.diags ++ dNoModel ++ dRest, [])

/-- Sum of the non-`samples` scores of a subtask chain, reading each
entry's `score` value as a Python integer. -/
def scoreValOf (d : Json) : Int := pyIntVal ((jLookup d "score").getD .null)

/-- See `scoreValOf`. -/
def nonSampleSum : Json → Int
  | .objCons n d t => (if n = "samples" then 0 else scoreValOf d) + nonSampleSum t
  | _ => 0

/-- The `index` value of a subtask entry. -/
def idxValOf (d : Json) : Json := (jLookup d "index").getD .null

/-- The `indexes` set collected by the loop, as a function of the chain. -/
def addPyChain (acc : List Json) : Json → List Json
  | .objCons _ d t => addPyChain (addPy acc (idxValOf d)) t
  | _ => acc

/-- All entry values of a subtask chain satisfy `p` (and the chain is a
proper object). -/
def allEntries (p : Json → Bool) : Json → Bool
  | .objCons _ d t => p d && allEntries p t
  | .objNil => true
  | _ => false

/-- A well-formed subtask entry: a dict with both `index` and `score`. -/
def entryWF (d : Json) : Bool :=
  isObjShape d && (jLookup d "index").isSome && (jLookup d "score").isSome

/-- The entry's `index` is hashable (so `indexes.add` cannot raise). -/
def entryIdxHashable (d : Json) : Bool := !isUnhashable (idxValOf d)

/-- The entry's `score` is a non-negative integer (in the Python
`isinstance(_, int)` sense). -/
def entryScoreNN (d : Json) : Bool :=
  match jLookup d "score" with
  | some s => isInstInt s && decide (0 ≤ pyIntVal s)
  | none => false

/-- The entry of `solutions[k]` has verdict `model_solution`. -/
def isModelKey (sols : Json) (k : String) : Bool :=
  (jLookup ((jLookup sols k).getD .null) "verdict").getD .null == Json.str model_solution_verdict

/-- Number of keys in `keys` that are on disk and whose entry is a model
solution. -/
def modelCountKeys (sols : Json) (files : List String) : List String → Nat
  | [] => 0
  | k :: t => (if files.contains k && isModelKey sols k then 1 else 0) + modelCountKeys sols files t

/-- Number of represented entries of `solutions.json` whose verdict is
`model_solution` (an entry is represented when its name is among the
on-disk solution files). -/
def representedModelCount (sols : Json) (files : List String) : Nat :=
  modelCountKeys sols files (jKeys sols)
/-- The starting index the loop checks: 0 when a `samples` subtask is
counted (`hasSamples`), i.e. when the problem loaded as a dict whose
`type` is not `OutputOnly` and the subtask dict has a `samples` key;
1 otherwise. -/
def sampleOffset (problem : Option Json) (subtasks : Json) : Nat :=
  match problem with
  | none => 1
  | some p =>
      if !isObjShape p then 1
      else
        match jLookup p "type" with
        | none => 1
        | some t =>
            if t = .str "OutputOnly" then 1
            else
              match pyContainsE subtasks "samples" with
              | .ok true => 0
              | _ => 1

/-- The error kinds the per-subtask loop can append. -/
def loopDiagOK (d : Diag) : Bool :=
  match d with
  | .invalidData _ => true
  | .keyRequired _ (some _) => true
  | .scoreInvalid _ => true
  | .samplesNonzero => true
  | .validatorsNotArray _ _ => true
  | .validatorNotString _ _ _ => true
  | .validatorFileNotFound _ _ _ => true
  | _ => false

/-- Whether one iteration of the solutions loop finds a model solution:
the item is a string naming an on-disk file whose entry's verdict is
`model_solution`. -/
def stepHit (solutions : Json) (files : List String) (item : Json) : Bool :=
  match item with
  | .str s => files.contains s && isModelKey solutions s
  | _ => false

/-- The remaining-file set after one iteration of the solutions loop. -/
def stepFiles (files : List String) (item : Json) : List String :=
  match item with
  | .str s => if files.contains s then files.filter (fun f => f ≠ s) else files
  | _ => files

/-- The error kinds one iteration of the solutions loop can append. -/
def solDiagOK (d : Diag) : Bool :=
  match d with
  | .solNotExists _ => true
  | .keyRequired _ (some _) => true
  | .verdictInvalid _ => true
  | .moreThanOneModel => true
  | .invalidExcept _ => true
  | .exceptUndefined _ => true
  | _ => false

/-- Number of model-solution hits of the loop over `items`, threading
the shrinking file set. -/
def loopHits (solutions : Json) (files : List String) : List Json → Nat
  | [] => 0
  | item :: t =>
      (if stepHit solutions files item then 1 else 0) +
        loopHits solutions (stepFiles files item) t

theorem land_ofNat (a b : Nat) : Int.land (Int.ofNat a) (Int.ofNat b) = Int.ofNat (a &&& b) :=
  rfl

/-- The bit trick of `verify_problem`: for natural `a ≥ 1`,
`a & (a - 1) == 0` holds exactly when `a` is a power of two. -/
theorem nat_and_pred_eq_zero_iff (a : Nat) (h : 1 ≤ a) :
    (a &&& (a - 1)) = 0 ↔ ∃ k : Nat, a = 2 ^ k := by
  constructor
  · intro h0
    set k := Nat.log2 a with hk
    have hne : a ≠ 0 := Nat.one_le_iff_ne_zero.mp h
    have hlo : 2 ^ k ≤ a := Nat.log2_self_le hne
    have hhi : a < 2 ^ (k + 1) := Nat.lt_log2_self
    refine ⟨k, ?_⟩
    by_contra hne2
    have hr1 : 2 ^ k < a := lt_of_le_of_ne hlo (fun hh => hne2 hh.symm)
    have hdivA : a / 2 ^ k = 1 := by
      have h2 : a < 2 ^ k * 2 := by
        have : (2 : Nat) ^ (k + 1) = 2 ^ k * 2 := by ring
        omega
      have hge : 1 ≤ a / 2 ^ k := (Nat.le_div_iff_mul_le (Nat.pos_pow_of_pos k (by norm_num))).mpr (by omega)
      have hlt : a / 2 ^ k < 2 := Nat.div_lt_of_lt_mul h2
      omega
    have hdivB : (a - 1) / 2 ^ k = 1 := by
      have h2 : a - 1 < 2 ^ k * 2 := by
        have : (2 : Nat) ^ (k + 1) = 2 ^ k * 2 := by ring
        omega
      have hge : 1 ≤ (a - 1) / 2 ^ k := (Nat.le_div_iff_mul_le (Nat.pos_pow_of_pos k (by norm_num))).mpr (by omega)
      have hlt : (a - 1) / 2 ^ k < 2 := Nat.div_lt_of_lt_mul h2
      omega
    have hbitA : a.testBit k = true := by
      rw [Nat.testBit_to_div_mod]
      simp [hdivA]
    have hbitB : (a - 1).testBit k = true := by
      rw [Nat.testBit_to_div_mod]
      simp [hdivB]
    have : (a &&& (a - 1)).testBit k = true := by
      rw [Nat.testBit_and, hbitA, hbitB]
      rfl
    rw [h0] at this
    simp at this
  · rintro ⟨k, rfl⟩
    apply Nat.eq_of_testBit_eq
    intro i
    rw [Nat.testBit_and]
    rcases eq_or_ne i k with rfl | hne
    · have : (2 ^ i - 1).testBit i = false := by
        simp [Nat.testBit_two_pow_sub_one]
      simp [this]
    · have : (2 ^ k).testBit i = false := by
        rw [Nat.testBit_two_pow]
        simp [Ne.symm hne]
      simp [this]

theorem int_and_pred_eq_zero_iff (m : Int) (h : 1 ≤ m) :
    Int.land m (m - 1) = 0 ↔ ∃ k : Nat, m = 2 ^ k := by
  obtain ⟨a, rfl⟩ : ∃ a : Nat, m = (a : Int) := ⟨m.toNat, (Int.toNat_of_nonneg (by omega)).symm⟩
  have ha : 1 ≤ a := by exact_mod_cast h
  have hsub : (a : Int) - 1 = ((a - 1 : Nat) : Int) := by omega
  have hland : Int.land (a : Int) ((a - 1 : Nat) : Int) = ((a &&& (a - 1) : Nat) : Int) := rfl
  rw [hsub, hland]
  rw [Int.natCast_eq_zero]
  rw [nat_and_pred_eq_zero_iff a ha]
  constructor
  · rintro ⟨k, rfl⟩
    exact ⟨k, by push_cast; ring⟩
  · rintro ⟨k, hk⟩
    exact ⟨k, by exact_mod_cast hk⟩

theorem hookGo_diags (j : Json) : ∀ (seen : List String) (cm : Bool),
    (∀ d ∈ (hookGo seen cm j).2.1, ∃ k, d = Diag.duplicateKey k) ∧
    (∀ d ∈ (hookGo seen cm j).2.2, ∃ k, d = Diag.duplicateKey k) := by
  induction j with
  | arrCons h t ihh iht =>
      intro seen cm
      cases cm with
      | false =>
          constructor
          · intro d hd
            simp only [hookGo, List.mem_append] at hd
            rcases hd with hd | hd
            · exact (ihh [] false).1 d hd
            · exact (iht [] false).1 d hd
          · intro d hd
            simp [hookGo] at hd
      | true => constructor <;> intro d hd <;> simp [hookGo] at hd
  | objCons k v t ihv iht =>
      intro seen cm
      cases cm with
      | false =>
          constructor
          · intro d hd
            simp only [hookGo, List.mem_append] at hd
            rcases hd with (hd | hd) | hd
            · exact (ihv [] false).1 d hd
            · exact (iht [k] true).1 d hd
            · exact (iht [k] true).2 d hd
          · intro d hd
            simp [hookGo] at hd
      | true =>
          by_cases hc : seen.contains k
          · constructor
            · intro d hd
              simp only [hookGo, hc, if_pos, List.mem_append] at hd
              rcases hd with hd | hd
              · exact (ihv [] false).1 d hd
              · exact (iht seen true).1 d hd
            · intro d hd
              simp only [hookGo, hc, if_pos, List.mem_cons] at hd
              rcases hd with rfl | hd
              · exact ⟨k, rfl⟩
              · exact (iht seen true).2 d hd
          · constructor
            · intro d hd
              simp only [hookGo, hc, if_neg, List.mem_append, Bool.false_eq_true,
                not_false_eq_true] at hd
              rcases hd with hd | hd
              · exact (ihv [] false).1 d hd
              · exact (iht (seen ++ [k]) true).1 d hd
            · intro d hd
              simp only [hookGo, hc, if_neg, Bool.false_eq_true, not_false_eq_true] at hd
              exact (iht (seen ++ [k]) true).2 d hd
  | null => intro seen cm; cases cm <;> constructor <;> intro d hd <;> simp [hookGo] at hd
  | bool b => intro seen cm; cases cm <;> constructor <;> intro d hd <;> simp [hookGo] at hd
  | int n => intro seen cm; cases cm <;> constructor <;> intro d hd <;> simp [hookGo] at hd
  | float q => intro seen cm; cases cm <;> constructor <;> intro d hd <;> simp [hookGo] at hd
  | str s => intro seen cm; cases cm <;> constructor <;> intro d hd <;> simp [hookGo] at hd
  | arrNil => intro seen cm; cases cm <;> constructor <;> intro d hd <;> simp [hookGo] at hd
  | objNil => intro seen cm; cases cm <;> constructor <;> intro d hd <;> simp [hookGo] at hd

theorem applyHook_diags (j : Json) : ∀ d ∈ (applyHook j).2, ∃ k, d = Diag.duplicateKey k := by
  intro d hd
  simp only [applyHook, List.mem_append] at hd
  rcases hd with hd | hd
  · exact (hookGo_diags j [] false).1 d hd
  · exact (hookGo_diags j [] false).2 d hd

theorem check_keys_diags : ∀ (req : List String) (data : Json) (jn : Option String)
    (ds : List Diag) (b : Bool), check_keys data req jn = .ok (ds, b) →
    ∀ d ∈ ds, ∃ k, k ∈ req ∧ d = Diag.keyRequired k jn := by
  intro req
  induction req with
  | nil =>
      intro data jn ds b hck d hd
      simp only [check_keys, Except.ok.injEq, Prod.mk.injEq] at hck
      rcases hck with ⟨rfl, rfl⟩
      simp at hd
  | cons k rest ih =>
      intro data jn ds b hck d hd
      simp only [check_keys] at hck
      cases hc : pyContainsE data k with
      | error e => rw [hc] at hck; simp at hck
      | ok present =>
          rw [hc] at hck
          cases present with
          | true =>
              simp only at hck
              obtain ⟨k2, hk2, rfl⟩ := ih data jn ds b hck d hd
              exact ⟨k2, by simp [hk2], rfl⟩
          | false =>
              simp only at hck
              cases hrest : check_keys data rest jn with
              | error e => rw [hrest] at hck; simp at hck
              | ok r =>
                  rw [hrest] at hck
                  obtain ⟨ds2, b2⟩ := r
                  simp only [Except.ok.injEq, Prod.mk.injEq] at hck
                  rcases hck with ⟨rfl, rfl⟩
                  rcases List.mem_cons.mp hd with rfl | hd2
                  · exact ⟨k, by simp, rfl⟩
                  · obtain ⟨k2, hk2, rfl⟩ := ih data jn ds2 b2 hrest d hd2
                    exact ⟨k2, by simp [hk2], rfl⟩

theorem load_data_diags (f : FileContent) (req : List String) (o : Option Json)
    (ds : List Diag) (h : load_data f req = .ok (o, ds)) :
    ∀ d ∈ ds, (∃ k, d = Diag.duplicateKey k) ∨ d = Diag.invalidJson ∨ d = Diag.fileNotExists ∨
      ∃ k, k ∈ req ∧ d = Diag.keyRequired k none := by
  intro d hd
  cases f with
  | missing =>
      simp only [load_data, Except.ok.injEq, Prod.mk.injEq] at h
      rcases h with ⟨rfl, rfl⟩
      simp at hd
      simp [hd]
  | invalid =>
      simp only [load_data, Except.ok.injEq, Prod.mk.injEq] at h
      rcases h with ⟨rfl, rfl⟩
      simp at hd
      simp [hd]
  | json raw =>
      simp only [load_data] at h
      cases hck : check_keys (applyHook raw).1 req none with
      | error e => rw [hck] at h; simp at h
      | ok r =>
          rw [hck] at h
          obtain ⟨ds2, b2⟩ := r
          cases b2 with
          | true =>
              simp only [if_pos, Except.ok.injEq, Prod.mk.injEq] at h
              rcases h with ⟨rfl, rfl⟩
              rcases List.mem_append.mp hd with hd2 | hd2
              · exact Or.inl (applyHook_diags raw d hd2)
              · obtain ⟨k, hk, rfl⟩ := check_keys_diags req (applyHook raw).1 none ds2 true hck d hd2
                exact Or.inr (Or.inr (Or.inr ⟨k, hk, rfl⟩))
          | false =>
              simp only [if_neg, Except.ok.injEq, Prod.mk.injEq, Bool.false_eq_true,
                not_false_eq_true] at h
              rcases h with ⟨rfl, rfl⟩
              rcases List.mem_append.mp hd with hd2 | hd2
              · exact Or.inl (applyHook_diags raw d hd2)
              · obtain ⟨k, hk, rfl⟩ := check_keys_diags req (applyHook raw).1 none ds2 false hck d hd2
                exact Or.inr (Or.inr (Or.inr ⟨k, hk, rfl⟩))

theorem nameCheck_fst (v : Json) (env : PEnv) (r : List Diag × List Warn)
    (h : nameCheck v env = .ok r) : r.1 = [] ∨ r.1 = [Diag.nameNotString] := by
  unfold nameCheck at h
  split at h
  · split at h
    · split at h
      · simp at h
      · simp only [Except.ok.injEq] at h
        subst h
        simp
    · simp only [Except.ok.injEq] at h
      subst h
      simp
  · simp only [Except.ok.injEq] at h
    subst h
    simp

theorem typeCheck_shape (v : Json) : typeCheck v = [] ∨ typeCheck v = [Diag.typeInvalid] := by
  unfold typeCheck
  split
  · split <;> simp
  · simp

theorem hasGraderCheck_fst (p : Json) (r : List Diag × List Warn)
    (h : hasGraderCheck p = .ok r) : r.1 = [] ∨ r.1 = [Diag.hasGraderNotBool] := by
  simp only [hasGraderCheck, bind, Except.bind, pure, Except.pure] at h
  split at h
  · simp at h
  · split at h
    · split at h
      · simp at h
      · split at h
        · split at h
          · simp at h
          · simp only [Except.ok.injEq] at h
            subst h
            simp
        · simp only [Except.ok.injEq] at h
          subst h
          simp
    · simp only [Except.ok.injEq] at h
      subst h
      simp

theorem hasManagerCheck_fst (p : Json) (r : List Diag × List Warn)
    (h : hasManagerCheck p = .ok r) : r.1 = [] ∨ r.1 = [Diag.hasManagerNotBool] := by
  simp only [hasManagerCheck, bind, Except.bind, pure, Except.pure] at h
  split at h
  · simp at h
  · split at h
    · split at h
      · simp at h
      · split at h
        · split at h
          · simp at h
          · simp only [Except.ok.injEq] at h
            subst h
            simp
        · simp only [Except.ok.injEq] at h
          subst h
          simp
    · simp only [Except.ok.injEq] at h
      subst h
      simp

theorem timeLimitCheck_shape (tl : Json) :
    timeLimitCheck tl = [] ∨ timeLimitCheck tl = [Diag.timeLimitError] := by
  unfold timeLimitCheck
  split
  · split <;> simp
  · simp

theorem memCheck_shape (m : Json) : memCheck m = [] ∨ memCheck m = [Diag.memoryLimitError] := by
  unfold memCheck
  split
  · simp
  · split
    · simp
    · split <;> simp

theorem half_eq_div : half = 1 / 2 := by
  unfold half
  rw [Rat.mk'_eq_divInt, Rat.divInt_eq_div]
  norm_num

theorem timeLimitCheck_mem (tl : Json) :
    Diag.timeLimitError ∈ timeLimitCheck tl ↔
      ¬ ∃ q : Rat, tl = Json.float q ∧ half ≤ q := by
  unfold timeLimitCheck
  cases tl with
  | float q =>
      by_cases hq : q < half
      · simp only [hq, if_pos, List.mem_singleton, true_iff]
        rintro ⟨q2, hq2, hle⟩
        simp only [Json.float.injEq] at hq2
        subst hq2
        exact absurd hq (not_lt.mpr hle)
      · simp only [hq, if_neg, not_false_eq_true, List.not_mem_nil, false_iff, not_not]
        exact ⟨q, rfl, not_lt.mp hq⟩
  | null => simp
  | bool b => simp
  | int n => simp
  | str s => simp
  | arrNil => simp
  | arrCons h t => simp
  | objNil => simp
  | objCons k v t => simp

theorem memCheck_mem (m : Json) :
    Diag.memoryLimitError ∈ memCheck m ↔
      ¬ (isInstInt m = true ∧ ∃ k : Nat, pyIntVal m = 2 ^ k) := by
  unfold memCheck
  cases him : isInstInt m with
  | false =>
      simp [him]
  | true =>
      simp only [him, Bool.not_true, Bool.false_eq_true, if_neg, not_false_eq_true,
        true_and]
      by_cases hlt : pyIntVal m < 1
      · simp only [hlt, if_pos, List.mem_singleton, true_iff]
        rintro ⟨k, hk⟩
        have : (1 : Int) ≤ 2 ^ k := one_le_pow₀ (by norm_num)
        omega
      · rw [if_neg hlt]
        have h1 : 1 ≤ pyIntVal m := by omega
        by_cases hz : Int.land (pyIntVal m) (pyIntVal m - 1) = 0
        · rw [if_neg (by simp [hz])]
          simp only [List.not_mem_nil, false_iff, not_not]
          exact (int_and_pred_eq_zero_iff (pyIntVal m) h1).mp hz
        · rw [if_pos (by simp [hz])]
          simp only [List.mem_singleton, true_iff]
          rintro ⟨k, hk⟩
          exact hz ((int_and_pred_eq_zero_iff (pyIntVal m) h1).mpr ⟨k, hk⟩)

theorem verify_problem_ok_inv (file : FileContent) (env : PEnv) (p : Json)
    (diags : List Diag) (warns : List Warn)
    (h : verify_problem file env = .ok (some p, diags, warns)) :
    ∃ d0 nameV rName titleV typeV rHG rHM tlV mV,
      load_data file ["name", "title", "type", "time_limit", "memory_limit"] =
        .ok (some p, d0) ∧
      pySubscriptStr p "name" = .ok nameV ∧
      nameCheck nameV env = .ok rName ∧
      pySubscriptStr p "title" = .ok titleV ∧
      pySubscriptStr p "type" = .ok typeV ∧
      hasGraderCheck p = .ok rHG ∧
      hasManagerCheck p = .ok rHM ∧
      pySubscriptStr p "time_limit" = .ok tlV ∧
      pySubscriptStr p "memory_limit" = .ok mV ∧
      diags = d0 ++ rName.1 ++
        (match titleV with | .str _ => [] | _ => [Diag.titleNotString]) ++
        typeCheck typeV ++ rHG.1 ++ rHM.1 ++ timeLimitCheck tlV ++ memCheck mV ∧
      warns = rName.2 ++ statementWarns env.statement titleV ++ rHG.2 ++ rHM.2 := by
  simp only [verify_problem, bind, Except.bind, pure, Except.pure] at h
  cases h0 : load_data file ["name", "title", "type", "time_limit", "memory_limit"] with
  | error e => rw [h0] at h; simp at h
  | ok r0 =>
      rw [h0] at h
      obtain ⟨o, d0⟩ := r0
      cases o with
      | none => simp at h
      | some p2 =>
          simp only at h
          cases h1 : pySubscriptStr p2 "name" with
          | error e => rw [h1] at h; simp at h
          | ok nameV =>
              rw [h1] at h
              simp only at h
              cases h2 : nameCheck nameV env with
              | error e => rw [h2] at h; simp at h
              | ok rName =>
                  rw [h2] at h
                  simp only at h
                  cases h3 : pySubscriptStr p2 "title" with
                  | error e => rw [h3] at h; simp at h
                  | ok titleV =>
                      rw [h3] at h
                      simp only at h
                      cases h4 : pySubscriptStr p2 "type" with
                      | error e => rw [h4] at h; simp at h
                      | ok typeV =>
                          rw [h4] at h
                          simp only at h
                          cases h5 : hasGraderCheck p2 with
                          | error e => rw [h5] at h; simp at h
                          | ok rHG =>
                              rw [h5] at h
                              simp only at h
                              cases h6 : hasManagerCheck p2 with
                              | error e => rw [h6] at h; simp at h
                              | ok rHM =>
                                  rw [h6] at h
                                  simp only at h
                                  cases h7 : pySubscriptStr p2 "time_limit" with
                                  | error e => rw [h7] at h; simp at h
                                  | ok tlV =>
                                      rw [h7] at h
                                      simp only at h
                                      cases h8 : pySubscriptStr p2 "memory_limit" with
                                      | error e => rw [h8] at h; simp at h
                                      | ok mV =>
                                          rw [h8] at h
                                          simp only [Except.ok.injEq, Prod.mk.injEq,
                                            Option.some.injEq] at h
                                          obtain ⟨rfl, rfl, rfl⟩ := h
                                          exact ⟨d0, nameV, rName, titleV, typeV, rHG, rHM,
                                            tlV, mV, rfl, h1, h2, h3, h4, h5, h6, h7, h8,
                                            rfl, rfl⟩

theorem pySubscriptStr_ok_lookup (p : Json) (k : String) (v : Json)
    (h : pySubscriptStr p k = .ok v) : jLookup p k = some v := by
  cases p <;> simp only [pySubscriptStr] at h <;> try simp at h
  case objCons key val t =>
    cases hl : jLookup (.objCons key val t) k with
    | none => rw [hl] at h; simp at h
    | some w => rw [hl] at h; simp only [Except.ok.injEq] at h; rw [h]

/-- Claim C8 counterexample: `problem.json` with `time_limit` the JSON
integer `2` — a number greater than 0.5 — still gets the time-limit
error, because the source tests `isinstance(time_limit, float)` and a
JSON integer literal parses to Python `int`.  This refutes the claim that
any numeric value at least 0.5, integer or fractional, is accepted. -/
theorem c8_counterexample :
    verify_problem (.json (jObj [("name", .str "p"), ("title", .str "t"),
        ("type", .str "Batch"), ("time_limit", .int 2), ("memory_limit", .int 256)]))
        ⟨some "true", none, none⟩ =
      .ok (some (jObj [("name", .str "p"), ("title", .str "t"), ("type", .str "Batch"),
        ("time_limit", .int 2), ("memory_limit", .int 256)]),
        [Diag.timeLimitError], [Warn.statementNotExists]) ∧
    pyNum (Json.int 2) = some (2 : Rat) ∧ (1 : Rat) / 2 ≤ 2 :=
  ⟨rfl, rfl, by norm_num⟩

/-- Claim C8, amended: for every successfully loaded `problem.json`,
`verify_problem` records a time-limit error iff the `time_limit` value is
not a Python float that is at least 0.5.  (JSON integer values are
Python ints and are rejected by the `isinstance(_, float)` test even
when they are at least 0.5.) -/
theorem c8_theorem (file : FileContent) (env : PEnv) (p : Json) (diags : List Diag)
    (warns : List Warn) (h : verify_problem file env = .ok (some p, diags, warns)) :
    Diag.timeLimitError ∈ diags ↔
      ¬ ∃ q : Rat, jLookup p "time_limit" = some (Json.float q) ∧ (1 : Rat) / 2 ≤ q := by
  obtain ⟨d0, nameV, rName, titleV, typeV, rHG, rHM, tlV, mV, h0, h1, h2, h3, h4, h5, h6,
    h7, h8, hdiags, hwarns⟩ := verify_problem_ok_inv file env p diags warns h
  have htl : jLookup p "time_limit" = some tlV := pySubscriptStr_ok_lookup p "time_limit" tlV h7
  have hA : Diag.timeLimitError ∉ d0 := by
    intro hm
    rcases load_data_diags file _ _ d0 h0 _ hm with ⟨k, hk⟩ | hk | hk | ⟨k, -, hk⟩ <;>
      simp at hk
  have hB : Diag.timeLimitError ∉ rName.1 := by
    intro hm
    rcases nameCheck_fst nameV env rName h2 with he | he <;> rw [he] at hm <;> simp at hm
  have hC : Diag.timeLimitError ∉
      (match titleV with | Json.str _ => ([] : List Diag) | _ => [Diag.titleNotString]) := by
    cases titleV <;> simp
  have hD : Diag.timeLimitError ∉ typeCheck typeV := by
    rcases typeCheck_shape typeV with he | he <;> rw [he] <;> simp
  have hE : Diag.timeLimitError ∉ rHG.1 := by
    intro hm
    rcases hasGraderCheck_fst p rHG h5 with he | he <;> rw [he] at hm <;> simp at hm
  have hF : Diag.timeLimitError ∉ rHM.1 := by
    intro hm
    rcases hasManagerCheck_fst p rHM h6 with he | he <;> rw [he] at hm <;> simp at hm
  have hH : Diag.timeLimitError ∉ memCheck mV := by
    rcases memCheck_shape mV with he | he <;> rw [he] <;> simp
  have hstep : Diag.timeLimitError ∈ diags ↔ Diag.timeLimitError ∈ timeLimitCheck tlV := by
    subst hdiags
    simp [List.mem_append, hA, hB, hC, hD, hE, hF, hH]
  rw [hstep, timeLimitCheck_mem tlV, htl, half_eq_div]
  simp

/-- Claim C8 witness: a `time_limit` of the JSON float `1.0` is accepted
(no time-limit error), instantiating the amended theorem at a concrete
run. -/
theorem c8_witness :
    Diag.timeLimitError ∈ ([] : List Diag) ↔
      ¬ ∃ q : Rat, jLookup (jObj [("name", .str "p"), ("title", .str "t"),
          ("type", .str "Batch"), ("time_limit", .float 1), ("memory_limit", .int 256)])
          "time_limit" = some (Json.float q) ∧ (1 : Rat) / 2 ≤ q :=
  c8_theorem (.json (jObj [("name", .str "p"), ("title", .str "t"), ("type", .str "Batch"),
      ("time_limit", .float 1), ("memory_limit", .int 256)]))
    ⟨some "true", none, none⟩
    (jObj [("name", .str "p"), ("title", .str "t"), ("type", .str "Batch"),
      ("time_limit", .float 1), ("memory_limit", .int 256)])
    [] [Warn.statementNotExists] rfl

/-- Claim C9: for every successfully loaded `problem.json`,
`verify_problem` records a memory-limit error iff the `memory_limit`
value is not an integer (in Python's `isinstance` sense, which admits
booleans) that is a power of two; and the implemented bit test
`m & (m - 1) == 0` agrees with being a power of two for every integer
`m >= 1`. -/
theorem c9_theorem (file : FileContent) (env : PEnv) (p : Json) (diags : List Diag)
    (warns : List Warn) (m : Json) (h : verify_problem file env = .ok (some p, diags, warns))
    (hmlook : jLookup p "memory_limit" = some m) :
    (Diag.memoryLimitError ∈ diags ↔
      ¬ (isInstInt m = true ∧ ∃ k : Nat, pyIntVal m = 2 ^ k)) ∧
    (∀ mv : Int, 1 ≤ mv → (Int.land mv (mv - 1) = 0 ↔ ∃ k : Nat, mv = 2 ^ k)) := by
  refine ⟨?_, fun mv h1 => int_and_pred_eq_zero_iff mv h1⟩
  obtain ⟨d0, nameV, rName, titleV, typeV, rHG, rHM, tlV, mV, h0, h1, h2, h3, h4, h5, h6,
    h7, h8, hdiags, hwarns⟩ := verify_problem_ok_inv file env p diags warns h
  have hmv : mV = m := by
    have hlk := pySubscriptStr_ok_lookup p "memory_limit" mV h8
    rw [hlk] at hmlook
    exact Option.some.inj hmlook
  subst hmv
  have hA : Diag.memoryLimitError ∉ d0 := by
    intro hm2
    rcases load_data_diags file _ _ d0 h0 _ hm2 with ⟨k, hk⟩ | hk | hk | ⟨k, -, hk⟩ <;>
      simp at hk
  have hB : Diag.memoryLimitError ∉ rName.1 := by
    intro hm2
    rcases nameCheck_fst nameV env rName h2 with he | he <;> rw [he] at hm2 <;> simp at hm2
  have hC : Diag.memoryLimitError ∉
      (match titleV with | Json.str _ => ([] : List Diag) | _ => [Diag.titleNotString]) := by
    cases titleV <;> simp
  have hD : Diag.memoryLimitError ∉ typeCheck typeV := by
    rcases typeCheck_shape typeV with he | he <;> rw [he] <;> simp
  have hE : Diag.memoryLimitError ∉ rHG.1 := by
    intro hm2
    rcases hasGraderCheck_fst p rHG h5 with he | he <;> rw [he] at hm2 <;> simp at hm2
  have hF : Diag.memoryLimitError ∉ rHM.1 := by
    intro hm2
    rcases hasManagerCheck_fst p rHM h6 with he | he <;> rw [he] at hm2 <;> simp at hm2
  have hG : Diag.memoryLimitError ∉ timeLimitCheck tlV := by
    rcases timeLimitCheck_shape tlV with he | he <;> rw [he] <;> simp
  have hstep : Diag.memoryLimitError ∈ diags ↔ Diag.memoryLimitError ∈ memCheck mV := by
    subst hdiags
    simp [List.mem_append, hA, hB, hC, hD, hE, hF, hG]
  rw [hstep, memCheck_mem mV]

/-- Claim C9 witness: `memory_limit = 256` is accepted (no memory-limit
error) and the bit test agrees with powers of two, instantiating the
theorem at a concrete run. -/
theorem c9_witness :
    (Diag.memoryLimitError ∈ ([] : List Diag) ↔
      ¬ (isInstInt (Json.int 256) = true ∧ ∃ k : Nat, pyIntVal (Json.int 256) = 2 ^ k)) ∧
    (∀ mv : Int, 1 ≤ mv → (Int.land mv (mv - 1) = 0 ↔ ∃ k : Nat, mv = 2 ^ k)) :=
  c9_theorem (.json (jObj [("name", .str "p"), ("title", .str "t"), ("type", .str "Batch"),
      ("time_limit", .float 1), ("memory_limit", .int 256)]))
    ⟨some "true", none, none⟩
    (jObj [("name", .str "p"), ("title", .str "t"), ("type", .str "Batch"),
      ("time_limit", .float 1), ("memory_limit", .int 256)])
    [] [Warn.statementNotExists] (Json.int 256) rfl rfl

theorem hookGo_value_dups_nil (j : Json) (seen : List String) :
    (hookGo seen false j).2.2 = [] := by
  cases j <;> rfl

theorem dupGo_hookGo (j : Json) : ∀ (seen : List String) (cm : Bool),
    dupGo seen cm j = true →
    ∃ k, Diag.duplicateKey k ∈ (hookGo seen cm j).2.1 ∨
      Diag.duplicateKey k ∈ (hookGo seen cm j).2.2 := by
  induction j with
  | arrCons h t ihh iht =>
      intro seen cm hdup
      cases cm with
      | false =>
          simp only [dupGo, Bool.or_eq_true] at hdup
          rcases hdup with hdup | hdup
          · obtain ⟨k, hk | hk⟩ := ihh [] false hdup
            · exact ⟨k, Or.inl (by simp [hookGo, hk])⟩
            · rw [hookGo_value_dups_nil h []] at hk
              simp at hk
          · obtain ⟨k, hk | hk⟩ := iht [] false hdup
            · exact ⟨k, Or.inl (by simp [hookGo, hk])⟩
            · rw [hookGo_value_dups_nil t []] at hk
              simp at hk
      | true => simp [dupGo] at hdup
  | objCons k v t ihv iht =>
      intro seen cm hdup
      cases cm with
      | false =>
          simp only [dupGo, Bool.or_eq_true] at hdup
          rcases hdup with hdup | hdup
          · obtain ⟨k2, hk | hk⟩ := ihv [] false hdup
            · exact ⟨k2, Or.inl (by simp [hookGo, hk])⟩
            · rw [hookGo_value_dups_nil v []] at hk
              simp at hk
          · obtain ⟨k2, hk | hk⟩ := iht [k] true hdup
            · exact ⟨k2, Or.inl (by simp [hookGo, hk])⟩
            · exact ⟨k2, Or.inl (by simp [hookGo, hk])⟩
      | true =>
          simp only [dupGo, Bool.or_eq_true] at hdup
          by_cases hc : seen.contains k
          · have hc2 : k ∈ seen := by simpa using hc
            exact ⟨k, Or.inr (by simp [hookGo, hc2])⟩
          · have hc2 : k ∉ seen := by simpa using hc
            rcases hdup with (hdup | hdup) | hdup
            · rw [hdup] at hc
              simp at hc
            · obtain ⟨k2, hk | hk⟩ := ihv [] false hdup
              · exact ⟨k2, Or.inl (by simp [hookGo, hc2, hk])⟩
              · rw [hookGo_value_dups_nil v []] at hk
                simp at hk
            · obtain ⟨k2, hk | hk⟩ := iht (seen ++ [k]) true hdup
              · exact ⟨k2, Or.inl (by simp [hookGo, hc2, hk])⟩
              · exact ⟨k2, Or.inr (by simp [hookGo, hc2, hk])⟩
  | null => intro seen cm hdup; cases cm <;> simp [dupGo] at hdup
  | bool b => intro seen cm hdup; cases cm <;> simp [dupGo] at hdup
  | int n => intro seen cm hdup; cases cm <;> simp [dupGo] at hdup
  | float q => intro seen cm hdup; cases cm <;> simp [dupGo] at hdup
  | str s => intro seen cm hdup; cases cm <;> simp [dupGo] at hdup
  | arrNil => intro seen cm hdup; cases cm <;> simp [dupGo] at hdup
  | objNil => intro seen cm hdup; cases cm <;> simp [dupGo] at hdup

theorem dup_diag_exists (j : Json) (h : hasDupKey j = true) :
    ∃ k, Diag.duplicateKey k ∈ (applyHook j).2 := by
  obtain ⟨k, hk | hk⟩ := dupGo_hookGo j [] false h
  · exact ⟨k, by simp [applyHook, hk]⟩
  · exact ⟨k, by simp [applyHook, hk]⟩

/-- Claim C1 counterexample: a top-level duplicate key records the
duplicate-key error but `load_data` still returns the parsed data
(first occurrence kept) — it does not return `None`, so dependent checks
do not short-circuit.  This refutes "the file is treated as failed to
load, i.e. load_data returns nothing". -/
theorem c1_counterexample :
    hasDupKey (jObj [("a", .null), ("a", .null)]) = true ∧
    load_data (.json (jObj [("a", .null), ("a", .null)])) [] =
      .ok (some (.objCons "a" .null .objNil), [Diag.duplicateKey "a"]) :=
  ⟨rfl, rfl⟩

/-- Claim C1, amended: for every JSON input containing a duplicate key at
any level, `load_data` records a duplicate-key error, but the file is
not treated as failed to load: provided the required keys are present in
the de-duplicated data, `load_data` returns that data (first occurrence
of each duplicated key kept) and the dependent checks proceed. -/
theorem c1_theorem (raw : Json) (req : List String)
    (hdup : hasDupKey raw = true)
    (hck : check_keys (applyHook raw).1 req none = .ok ([], true)) :
    ∃ k ds, load_data (.json raw) req = .ok (some (applyHook raw).1, ds) ∧
      Diag.duplicateKey k ∈ ds := by
  obtain ⟨k, hk⟩ := dup_diag_exists raw hdup
  refine ⟨k, (applyHook raw).2 ++ [], ?_, ?_⟩
  · simp [load_data, hck]
  · simp [hk]

/-- Claim C1 witness: a duplicate key nested one level down, with no
required keys; the load succeeds and the duplicate-key error is
recorded. -/
theorem c1_witness :
    ∃ k ds, load_data (.json (jObj [("x", jObj [("b", .null), ("b", .int 1)])])) [] =
      .ok (some (applyHook (jObj [("x", jObj [("b", .null), ("b", .int 1)])])).1, ds) ∧
      Diag.duplicateKey k ∈ ds :=
  c1_theorem (jObj [("x", jObj [("b", .null), ("b", .int 1)])]) [] rfl rfl

/-- Claim C2: when `verify_problem` has returned `None` (here: `problem
= none`) and `subtasks.json` itself loads with a validator key present,
`verify_subtasks` does not short-circuit gracefully — it evaluates
`problem['type']`, which raises `TypeError` (`NoneType` is not
subscriptable); the surrounding handler only catches `KeyError`, so the
exception escapes.  This exhibits the run of `verify_subtasks` on such
an input ending in the uncaught `TypeError`. -/
theorem c2_theorem :
    verify_subtasks none [] (.json (jObj [("subtasks", jObj []),
      ("global_validators", jArr [])])) = .error .typeError := rfl

theorem verify_subtasks_ok_inv (problem : Option Json) (lst : List String)
    (file : FileContent) (subs : Json) (diags : List Diag) (warns : List Warn)
    (h : verify_subtasks problem lst file = .ok (some subs, diags, warns)) :
    ∃ sd d0 hG hS r1 r2 sv d3 r4 stF,
      load_data file ["subtasks"] = .ok (some sd, d0) ∧
      pyContainsE sd k_glob = .ok hG ∧
      pyContainsE sd k_sub = .ok hS ∧
      (hG || hS) = true ∧
      check_validator_key (validatorFilesOf lst) sd k_glob "global" none [] = .ok r1 ∧
      check_validator_key (validatorFilesOf lst) sd k_sub "subtask-sensitive" none r1.1 =
        .ok r2 ∧
      pyDictGetDefault sd k_sub .arrNil = .ok sv ∧
      placeholderLoop sv = .ok d3 ∧
      pySubscriptStr sd "subtasks" = .ok subs ∧
      samplesBlock problem subs = .ok r4 ∧
      subtasksLoop (validatorFilesOf lst) ⟨[], 0, r2.1, []⟩ subs = .ok stF ∧
      diags = d0 ++ r1.2 ++ r2.2 ++ d3 ++ r4.2 ++ stF.diags ++
        (if stF.scoreSum ≠ 100 then [Diag.sumOfScores stF.scoreSum] else []) ++
        missingIndexDiags stF.indexes (if r4.1 then 0 else 1) (jObjLen subs) ∧
      warns = unusedWarns (validatorFilesOf lst) stF.used := by
  simp only [verify_subtasks, bind, Except.bind, pure, Except.pure] at h
  cases h0 : load_data file ["subtasks"] with
  | error e => rw [h0] at h; simp at h
  | ok r0 =>
      rw [h0] at h
      obtain ⟨o, d0⟩ := r0
      cases o with
      | none => simp at h
      | some sd =>
          simp only at h
          cases h1 : pyContainsE sd k_glob with
          | error e => rw [h1] at h; simp at h
          | ok hG =>
              rw [h1] at h
              simp only at h
              cases h2 : pyContainsE sd k_sub with
              | error e => rw [h2] at h; simp at h
              | ok hS =>
                  rw [h2] at h
                  simp only at h
                  cases hGS : (!hG && !hS) with
                  | true => rw [hGS] at h; simp at h
                  | false =>
                      rw [hGS] at h
                      simp only [Bool.false_eq_true, if_neg, not_false_eq_true] at h
                      cases h3 : check_validator_key (validatorFilesOf lst) sd k_glob
                          "global" none [] with
                      | error e => rw [h3] at h; simp at h
                      | ok r1 =>
                          rw [h3] at h
                          simp only at h
                          cases h4 : check_validator_key (validatorFilesOf lst) sd k_sub
                              "subtask-sensitive" none r1.1 with
                          | error e => rw [h4] at h; simp at h
                          | ok r2 =>
                              rw [h4] at h
                              simp only at h
                              cases h5 : pyDictGetDefault sd k_sub .arrNil with
                              | error e => rw [h5] at h; simp at h
                              | ok sv =>
                                  rw [h5] at h
                                  simp only at h
                                  cases h6 : placeholderLoop sv with
                                  | error e => rw [h6] at h; simp at h
                                  | ok d3 =>
                                      rw [h6] at h
                                      simp only at h
                                      cases h7 : pySubscriptStr sd "subtasks" with
                                      | error e => rw [h7] at h; simp at h
                                      | ok subtasks =>
                                          rw [h7] at h
                                          simp only at h
                                          cases h8 : samplesBlock problem subtasks with
                                          | error e => rw [h8] at h; simp at h
                                          | ok r4 =>
                                              rw [h8] at h
                                              simp only at h
                                              cases h9 : subtasksLoop (validatorFilesOf lst)
                                                  ⟨[], 0, r2.1, []⟩ subtasks with
                                              | error e => rw [h9] at h; simp at h
                                              | ok stF =>
                                                  rw [h9] at h
                                                  simp only [Except.ok.injEq, Prod.mk.injEq,
                                                    Option.some.injEq] at h
                                                  obtain ⟨rfl, rfl, rfl⟩ := h
                                                  refine ⟨sd, d0, hG, hS, r1, r2, sv, d3, r4,
                                                    stF, rfl, h1, h2, ?_, ⟨h3, h4, h5, h6, h7,
                                                    h8, h9, by simp [Prod.mk.eta], rfl⟩⟩
                                                  cases hG <;> cases hS <;> simp_all

theorem cvkItems_diags (chain : Json) : ∀ (vf : List String) (name : String)
    (parName : Option String) (num : Nat) (used : List String),
    ∀ d ∈ (cvkItems vf name parName num used chain).2,
      (∃ a b c, d = Diag.validatorNotString a b c) ∨
      (∃ a b c, d = Diag.validatorFileNotFound a b c) := by
  induction chain with
  | arrCons e t ihe iht =>
      intro vf name parName num used d hd
      clear ihe
      cases e <;> simp only [cvkItems] at hd
      case str s =>
        split at hd
        · split at hd
          · exact iht vf name parName (num + 1) _ d hd
          · rcases List.mem_cons.mp hd with rfl | hd2
            · exact Or.inr ⟨name, firstToken s, parName, rfl⟩
            · exact iht vf name parName (num + 1) used d hd2
        · exact iht vf name parName (num + 1) used d hd
      all_goals
        rcases List.mem_cons.mp hd with rfl | hd2
        · exact Or.inl ⟨name, num, parName, rfl⟩
        · exact iht vf name parName (num + 1) used d hd2
  | null => intro vf name parName num used d hd; simp [cvkItems] at hd
  | bool b => intro vf name parName num used d hd; simp [cvkItems] at hd
  | int n => intro vf name parName num used d hd; simp [cvkItems] at hd
  | float q => intro vf name parName num used d hd; simp [cvkItems] at hd
  | str s => intro vf name parName num used d hd; simp [cvkItems] at hd
  | arrNil => intro vf name parName num used d hd; simp [cvkItems] at hd
  | objNil => intro vf name parName num used d hd; simp [cvkItems] at hd
  | objCons k v t ihv iht => intro vf name parName num used d hd; simp [cvkItems] at hd

theorem check_validator_key_diags (vf : List String) (parent : Json) (key name : String)
    (parName : Option String) (used : List String) (r : List String × List Diag)
    (h : check_validator_key vf parent key name parName used = .ok r) :
    ∀ d ∈ r.2, (∃ a b, d = Diag.validatorsNotArray a b) ∨
      (∃ a b c, d = Diag.validatorNotString a b c) ∨
      (∃ a b c, d = Diag.validatorFileNotFound a b c) := by
  simp only [check_validator_key, bind, Except.bind, pure, Except.pure] at h
  split at h
  · simp at h
  · split at h
    · rw [Except.ok.injEq] at h
      subst h
      intro d hd
      simp at hd
    · split at h
      · simp at h
      · split at h
        · rw [Except.ok.injEq] at h
          subst h
          intro d hd
          simp at hd
          simp [hd]
        · rw [Except.ok.injEq] at h
          subst h
          intro d hd
          rcases cvkItems_diags _ vf name parName 1 used d hd with h3 | h3
          · exact Or.inr (Or.inl h3)
          · exact Or.inr (Or.inr h3)

theorem placeholderCheck_diags (entry : Json) (ds : List Diag)
    (h : placeholderCheck entry = .ok ds) :
    ∀ d ∈ ds, (∃ a b, d = Diag.unknownPlaceholder a b) ∨
      ∃ a, d = Diag.placeholderMissing a := by
  intro d hd
  simp only [placeholderCheck] at h
  split at h
  · split at h
    · simp only [Except.ok.injEq] at h
      subst h
      simp at hd
      simp [hd]
    · simp at h
    · split at h <;> simp only [Except.ok.injEq] at h <;> subst h <;> simp at hd
      simp [hd]
  · simp at h

theorem placeholderLoopChars_diags (cs : List Char) : ∀ (ds : List Diag),
    placeholderLoopChars cs = .ok ds →
    ∀ d ∈ ds, (∃ a b, d = Diag.unknownPlaceholder a b) ∨
      ∃ a, d = Diag.placeholderMissing a := by
  induction cs with
  | nil =>
      intro ds h
      simp only [placeholderLoopChars, Except.ok.injEq] at h
      subst h
      simp
  | cons c t ih =>
      intro ds h d hd
      simp only [placeholderLoopChars] at h
      split at h
      · simp at h
      · split at h
        · simp at h
        · simp only [Except.ok.injEq] at h
          subst h
          rcases List.mem_append.mp hd with hd2 | hd2
          · exact placeholderCheck_diags _ _ (by assumption) d hd2
          · exact ih _ (by assumption) d hd2

theorem placeholderLoop_diags (sv : Json) : ∀ (ds : List Diag), placeholderLoop sv = .ok ds →
    ∀ d ∈ ds, (∃ a b, d = Diag.unknownPlaceholder a b) ∨
      ∃ a, d = Diag.placeholderMissing a := by
  induction sv with
  | arrCons e t ihe iht =>
      intro ds h d hd
      clear ihe
      simp only [placeholderLoop] at h
      split at h
      · simp at h
      · split at h
        · simp at h
        · simp only [Except.ok.injEq] at h
          subst h
          rcases List.mem_append.mp hd with hd2 | hd2
          · exact placeholderCheck_diags _ _ (by assumption) d hd2
          · exact iht _ (by assumption) d hd2
  | objCons k v t ihv iht =>
      intro ds h d hd
      clear ihv
      simp only [placeholderLoop] at h
      split at h
      · simp at h
      · split at h
        · simp at h
        · simp only [Except.ok.injEq] at h
          subst h
          rcases List.mem_append.mp hd with hd2 | hd2
          · exact placeholderCheck_diags _ _ (by assumption) d hd2
          · exact iht _ (by assumption) d hd2
  | str s => intro ds h; exact placeholderLoopChars_diags s.toList ds h
  | null => intro ds h; simp [placeholderLoop] at h
  | bool b => intro ds h; simp [placeholderLoop] at h
  | int n => intro ds h; simp [placeholderLoop] at h
  | float q => intro ds h; simp [placeholderLoop] at h
  | arrNil =>
      intro ds h
      simp only [placeholderLoop, Except.ok.injEq] at h
      subst h
      simp
  | objNil =>
      intro ds h
      simp only [placeholderLoop, Except.ok.injEq] at h
      subst h
      simp

theorem samplesBlock_diags (problem : Option Json) (subtasks : Json) (r : Bool × List Diag)
    (h : samplesBlock problem subtasks = .ok r) :
    ∀ d ∈ r.2, d = Diag.keyRequired "samples" none := by
  cases problem with
  | none => simp [samplesBlock] at h
  | some p =>
      simp only [samplesBlock] at h
      split at h
      · simp at h
      · split at h
        · rw [Except.ok.injEq] at h
          subst h
          intro d hd
          simp at hd
        · split at h
          · rw [Except.ok.injEq] at h
            subst h
            intro d hd
            simp at hd
          · split at h
            · simp at h
            · rw [Except.ok.injEq] at h
              subst h
              intro d hd
              simp at hd
            · rw [Except.ok.injEq] at h
              subst h
              intro d hd
              simp at hd
              simp [hd]

theorem scoreDiags_shapes (name : String) (score : Json) :
    ∀ d ∈ (scoreDiags name score).1, d = Diag.scoreInvalid name ∨ d = Diag.samplesNonzero := by
  intro d hd
  simp only [scoreDiags] at hd
  split at hd
  · simp at hd
    simp [hd]
  · split at hd
    · split at hd <;> simp at hd
      simp [hd]
    · simp at hd

theorem scoreDiags_sum (name : String) (score : Json)
    (h1 : isInstInt score = true) (h2 : 0 ≤ pyIntVal score) :
    (scoreDiags name score).2 = if name = "samples" then 0 else pyIntVal score := by
  simp only [scoreDiags, h1, Bool.not_true, Bool.false_or]
  rw [if_neg (by simp only [decide_eq_true_eq]; omega)]
  split <;> rfl

theorem subtaskStep_ok (vf : List String) (st : SubSt) (name : String) (data : Json)
    (st2 : SubSt) (h : subtaskStep vf st name data = .ok st2) :
    (∃ Δ, st2.diags = st.diags ++ Δ ∧ ∀ d ∈ Δ, loopDiagOK d = true) ∧
    (entryWF data = true → entryScoreNN data = true →
      st2.scoreSum = st.scoreSum + (if name = "samples" then 0 else scoreValOf data)) ∧
    (entryWF data = true → st2.indexes = addPy st.indexes (idxValOf data)) := by
  simp only [subtaskStep] at h
  split at h
  · rw [Except.ok.injEq] at h
    subst h
    refine ⟨⟨[Diag.invalidData name], rfl, by simp [loopDiagOK]⟩, ?_, ?_⟩ <;>
      · intro hwf
        simp only [entryWF] at hwf
        simp_all [isObjShape]
  · split at h
    case h_1 hidx hsc =>
      rw [Except.ok.injEq] at h
      subst h
      refine ⟨⟨[Diag.keyRequired "index" (some name), Diag.keyRequired "score" (some name)],
        rfl, by simp [loopDiagOK]⟩, ?_, ?_⟩ <;>
        · intro hwf
          simp only [entryWF, hidx] at hwf
          simp at hwf
    case h_2 hidx hsc =>
      rw [Except.ok.injEq] at h
      subst h
      refine ⟨⟨[Diag.keyRequired "index" (some name)], rfl, by simp [loopDiagOK]⟩, ?_, ?_⟩ <;>
        · intro hwf
          simp only [entryWF, hidx] at hwf
          simp at hwf
    case h_3 hidx hsc =>
      rw [Except.ok.injEq] at h
      subst h
      refine ⟨⟨[Diag.keyRequired "score" (some name)], rfl, by simp [loopDiagOK]⟩, ?_, ?_⟩ <;>
        · intro hwf
          simp only [entryWF, hsc] at hwf
          simp at hwf
    case h_4 idx score hidx hsc =>
      split at h
      · simp at h
      · cases hcvk : check_validator_key vf data "validators" "subtask" (some name) st.used with
        | error e => rw [hcvk] at h; simp at h
        | ok r =>
            rw [hcvk] at h
            obtain ⟨used2, dv⟩ := r
            simp only [Except.ok.injEq] at h
            subst h
            constructor
            · refine ⟨(scoreDiags name score).1 ++ dv, List.append_assoc _ _ _, ?_⟩
              intro d hd
              rcases List.mem_append.mp hd with hd2 | hd2
              · rcases scoreDiags_shapes name score d hd2 with rfl | rfl <;> simp [loopDiagOK]
              · rcases check_validator_key_diags vf data "validators" "subtask" (some name)
                  st.used (used2, dv) hcvk d hd2 with ⟨a, b, rfl⟩ | ⟨a, b, c, rfl⟩ |
                  ⟨a, b, c, rfl⟩ <;> simp [loopDiagOK]
            constructor
            · intro hwf hnn
              simp only [entryScoreNN, hsc] at hnn
              have h1 : isInstInt score = true := by
                cases hii : isInstInt score <;> simp_all
              have h2 : 0 ≤ pyIntVal score := by
                cases hii : isInstInt score <;> simp_all
              simp only [scoreDiags_sum name score h1 h2, scoreValOf, hsc, Option.getD_some]
            · intro hwf
              simp only [idxValOf, hidx, Option.getD_some]

theorem subtasksLoop_ok (chain : Json) : ∀ (vf : List String) (st st2 : SubSt),
    subtasksLoop vf st chain = .ok st2 →
    (∃ Δ, st2.diags = st.diags ++ Δ ∧ ∀ d ∈ Δ, loopDiagOK d = true) ∧
    (allEntries (fun d => entryWF d && entryScoreNN d) chain = true →
      st2.scoreSum = st.scoreSum + nonSampleSum chain) ∧
    (allEntries entryWF chain = true → st2.indexes = addPyChain st.indexes chain) := by
  induction chain with
  | objCons name data t ihv iht =>
      intro vf st st2 h
      clear ihv
      simp only [subtasksLoop] at h
      cases hstep : subtaskStep vf st name data with
      | error e => rw [hstep] at h; simp at h
      | ok st1 =>
          rw [hstep] at h
          obtain ⟨⟨Δ1, hΔ1, hΔ1ok⟩, hsum1, hidx1⟩ :=
            subtaskStep_ok vf st name data st1 hstep
          obtain ⟨⟨Δ2, hΔ2, hΔ2ok⟩, hsum2, hidx2⟩ := iht vf st1 st2 h
          refine ⟨⟨Δ1 ++ Δ2, ?_, ?_⟩, ?_, ?_⟩
          · rw [hΔ2, hΔ1, List.append_assoc]
          · intro d hd
            rcases List.mem_append.mp hd with hd2 | hd2
            · exact hΔ1ok d hd2
            · exact hΔ2ok d hd2
          · intro hwf
            have hw1 : entryWF data = true := by
              cases he : entryWF data
              · simp [allEntries, he] at hwf
              · rfl
            have hw2 : entryScoreNN data = true := by
              cases he : entryScoreNN data
              · simp [allEntries, he] at hwf
              · rfl
            have hwft : allEntries (fun d => entryWF d && entryScoreNN d) t = true := by
              cases he : allEntries (fun d => entryWF d && entryScoreNN d) t
              · simp [allEntries, he] at hwf
              · rfl
            rw [hsum2 hwft, hsum1 hw1 hw2]
            simp only [nonSampleSum]
            ring
          · intro hwf
            have hw1 : entryWF data = true := by
              cases he : entryWF data
              · simp [allEntries, he] at hwf
              · rfl
            have hwft : allEntries entryWF t = true := by
              cases he : allEntries entryWF t
              · simp [allEntries, he] at hwf
              · rfl
            rw [hidx2 hwft, hidx1 hw1]
            simp only [addPyChain]
  | objNil =>
      intro vf st st2 h
      simp only [subtasksLoop, Except.ok.injEq] at h
      subst h
      exact ⟨⟨[], by simp, by simp⟩, by simp [nonSampleSum], by simp [addPyChain]⟩
  | null => intro vf st st2 h; simp [subtasksLoop] at h
  | bool b => intro vf st st2 h; simp [subtasksLoop] at h
  | int n => intro vf st st2 h; simp [subtasksLoop] at h
  | float q => intro vf st st2 h; simp [subtasksLoop] at h
  | str s => intro vf st st2 h; simp [subtasksLoop] at h
  | arrNil => intro vf st st2 h; simp [subtasksLoop] at h
  | arrCons hh tt ih1 ih2 => intro vf st st2 h; simp [subtasksLoop] at h

theorem missingIndexDiags_shapes (idxs : List Json) (off len : Nat) :
    ∀ d ∈ missingIndexDiags idxs off len, ∃ i, d = Diag.missingIndex i := by
  intro d hd
  simp only [missingIndexDiags] at hd
  obtain ⟨i, _, hf⟩ := List.mem_filterMap.mp hd
  split at hf
  · simp at hf
  · simp only [Option.some.injEq] at hf
    exact ⟨i, hf.symm⟩

/-- Claim C3: for every run of `verify_subtasks` that obtains the
subtask dict (returns it) and whose entries all carry `index` and
`score` keys with non-negative integer scores, the score-sum error with
value `s` is recorded iff `s` is the sum of the non-`samples` scores and
that sum differs from 100; the recorded message text is
`sum of scores is <sum>`. -/
theorem c3_theorem (problem : Option Json) (lst : List String) (file : FileContent)
    (subs : Json) (diags : List Diag) (warns : List Warn)
    (h : verify_subtasks problem lst file = .ok (some subs, diags, warns))
    (hwf : allEntries (fun d => entryWF d && entryScoreNN d) subs = true) :
    (∀ s : Int, Diag.sumOfScores s ∈ diags ↔
      (s = nonSampleSum subs ∧ nonSampleSum subs ≠ 100)) ∧
    renderDiag (Diag.sumOfScores (nonSampleSum subs)) =
      "sum of scores is " ++ toString (nonSampleSum subs) := by
  refine ⟨?_, rfl⟩
  intro s
  obtain ⟨sd, d0, hG, hS, r1, r2, sv, d3, r4, stF, hload, hcg, hcs, hgs, hcvk1, hcvk2, hdg,
    hpl, hsub, hsb, hloop, hdiags, hwarns⟩ :=
    verify_subtasks_ok_inv problem lst file subs diags warns h
  obtain ⟨⟨Δ, hΔ, hΔok⟩, hsum, -⟩ :=
    subtasksLoop_ok subs (validatorFilesOf lst) ⟨[], 0, r2.1, []⟩ stF hloop
  have hscore : stF.scoreSum = nonSampleSum subs := by
    have := hsum hwf
    simpa using this
  have hA : Diag.sumOfScores s ∉ d0 := by
    intro hm
    rcases load_data_diags file _ _ d0 hload _ hm with ⟨k, hk⟩ | hk | hk | ⟨k, -, hk⟩ <;>
      simp at hk
  have hB : Diag.sumOfScores s ∉ r1.2 := by
    intro hm
    rcases check_validator_key_diags _ _ _ _ _ _ r1 hcvk1 _ hm with ⟨a, b, hk⟩ |
      ⟨a, b, c, hk⟩ | ⟨a, b, c, hk⟩ <;> simp at hk
  have hC : Diag.sumOfScores s ∉ r2.2 := by
    intro hm
    rcases check_validator_key_diags _ _ _ _ _ _ r2 hcvk2 _ hm with ⟨a, b, hk⟩ |
      ⟨a, b, c, hk⟩ | ⟨a, b, c, hk⟩ <;> simp at hk
  have hD : Diag.sumOfScores s ∉ d3 := by
    intro hm
    rcases placeholderLoop_diags sv d3 hpl _ hm with ⟨a, b, hk⟩ | ⟨a, hk⟩ <;> simp at hk
  have hE : Diag.sumOfScores s ∉ r4.2 := by
    intro hm
    have := samplesBlock_diags problem subs r4 hsb _ hm
    simp at this
  have hF : Diag.sumOfScores s ∉ stF.diags := by
    intro hm
    rw [hΔ] at hm
    simp only [List.nil_append] at hm
    have := hΔok _ hm
    simp [loopDiagOK] at this
  have hH : Diag.sumOfScores s ∉
      missingIndexDiags stF.indexes (if r4.1 then 0 else 1) (jObjLen subs) := by
    intro hm
    obtain ⟨i, hk⟩ := missingIndexDiags_shapes _ _ _ _ hm
    simp at hk
  rw [hdiags]
  simp only [List.mem_append, hA, hB, hC, hD, hE, hF, hH, false_or, or_false]
  by_cases hne : stF.scoreSum ≠ 100
  · rw [if_pos hne]
    simp only [List.mem_singleton, Diag.sumOfScores.injEq]
    constructor
    · intro hs
      exact ⟨by rw [hs, hscore], by rw [← hscore]; exact hne⟩
    · rintro ⟨hs, -⟩
      rw [hs, hscore]
  · rw [if_neg hne]
    simp only [List.not_mem_nil, false_iff, not_and]
    intro hs
    push_neg at hne
    rw [← hscore]
    simp [hne]

/-- Claim C3 witness: the spec's scenario B — two subtasks scoring 60
and 30 and no `samples` — yields exactly the error with message
`sum of scores is 90` (the `samples`-missing error is separate and
unrelated to scoring). -/
theorem c3_witness :
    Diag.sumOfScores 90 ∈ [Diag.keyRequired "samples" none, Diag.sumOfScores 90] ↔
      ((90 : Int) = nonSampleSum (jObj [("a", jObj [("index", .int 1), ("score", .int 60)]),
          ("b", jObj [("index", .int 2), ("score", .int 30)])]) ∧
        nonSampleSum (jObj [("a", jObj [("index", .int 1), ("score", .int 60)]),
          ("b", jObj [("index", .int 2), ("score", .int 30)])]) ≠ 100) :=
  (c3_theorem
    (some (jObj [("name", .str "p"), ("title", .str "t"), ("type", .str "Batch"),
      ("time_limit", .float 1), ("memory_limit", .int 256)]))
    [] (.json (jObj [("subtasks", jObj [("a", jObj [("index", .int 1), ("score", .int 60)]),
      ("b", jObj [("index", .int 2), ("score", .int 30)])]), ("global_validators", jArr [])]))
    (jObj [("a", jObj [("index", .int 1), ("score", .int 60)]),
      ("b", jObj [("index", .int 2), ("score", .int 30)])])
    [Diag.keyRequired "samples" none, Diag.sumOfScores 90] [] rfl rfl).1 90

theorem samplesBlock_offset (problem : Option Json) (subtasks : Json) (r : Bool × List Diag)
    (h : samplesBlock problem subtasks = .ok r) :
    (if r.1 then 0 else 1) = sampleOffset problem subtasks := by
  cases problem with
  | none => simp [samplesBlock] at h
  | some p =>
      simp only [samplesBlock] at h
      simp only [sampleOffset]
      split at h
      · simp at h
      · rename_i hobj
        rw [if_neg hobj]
        split at h
        · rw [Except.ok.injEq] at h
          subst h
          rfl
        · split at h
          · rename_i hoo
            rw [if_pos hoo]
            rw [Except.ok.injEq] at h
            subst h
            rfl
          · rename_i hoo
            rw [if_neg hoo]
            split at h
            · simp at h
            · rename_i hc
              rw [hc]
              rw [Except.ok.injEq] at h
              subst h
              rfl
            · rename_i hc
              rw [hc]
              rw [Except.ok.injEq] at h
              subst h
              rfl

theorem count_filterMap_missing (idxs : List Json) (off i : Nat) : ∀ (L : List Nat),
    L.Nodup →
    (L.filterMap (fun j => if memPy (.int ((j + off : Nat) : Int)) idxs then none
        else some (Diag.missingIndex j))).count (Diag.missingIndex i) =
      if i ∈ L ∧ memPy (.int ((i + off : Nat) : Int)) idxs = false then 1 else 0 := by
  intro L
  induction L with
  | nil => simp
  | cons j t ih =>
      intro hnd
      obtain ⟨hj, hndt⟩ := List.nodup_cons.mp hnd
      rw [List.filterMap_cons]
      by_cases hm : memPy (.int ((j + off : Nat) : Int)) idxs
      · rw [if_pos hm, ih hndt]
        by_cases hij : i = j
        · subst hij
          have c1 : ¬(i ∈ t ∧ memPy (.int ((i + off : Nat) : Int)) idxs = false) :=
            fun hc => hj hc.1
          have c2 : ¬(i ∈ i :: t ∧ memPy (.int ((i + off : Nat) : Int)) idxs = false) := by
            rintro ⟨-, h2⟩
            rw [hm] at h2
            cases h2
          rw [if_neg c1, if_neg c2]
        · have hij2 : (i = j) = False := eq_false hij
          simp only [List.mem_cons, hij2, false_or]
      · rw [if_neg hm]
        by_cases hij : i = j
        · subst hij
          rw [List.count_cons_self, ih hndt]
          have hm2 : memPy (.int ((i + off : Nat) : Int)) idxs = false := by
            cases hb : memPy (.int ((i + off : Nat) : Int)) idxs <;> simp_all
          have c1 : ¬(i ∈ t ∧ memPy (.int ((i + off : Nat) : Int)) idxs = false) :=
            fun hc => hj hc.1
          rw [if_neg c1, if_pos ⟨List.mem_cons_self i t, hm2⟩]
        · rw [List.count_cons_of_ne (by simp [hij]), ih hndt]
          have hij2 : (i = j) = False := eq_false hij
          simp only [List.mem_cons, hij2, false_or]

/-- Claim C4 counterexample: with a `samples` subtask present (problem
type `Batch`), the code checks indices from 0, not from 1 as the claim
states.  Subtasks `samples` (index 0) and `a` (index 1) produce no
missing-index error at all, although the claim's range `[1, 2]` is not
covered (index 2 is missing from the index set) and so the claim demands
an error naming it. -/
theorem c4_counterexample :
    verify_subtasks
      (some (jObj [("name", .str "p"), ("title", .str "t"), ("type", .str "Batch"),
        ("time_limit", .float 1), ("memory_limit", .int 256)]))
      []
      (.json (jObj [("subtasks", jObj
          [("samples", jObj [("index", .int 0), ("score", .int 0)]),
           ("a", jObj [("index", .int 1), ("score", .int 100)])]),
        ("global_validators", jArr [])])) =
      .ok (some (jObj [("samples", jObj [("index", .int 0), ("score", .int 0)]),
        ("a", jObj [("index", .int 1), ("score", .int 100)])]), [], []) ∧
    memPy (.int 2) (addPyChain [] (jObj
      [("samples", jObj [("index", .int 0), ("score", .int 0)]),
       ("a", jObj [("index", .int 1), ("score", .int 100)])])) = false :=
  ⟨rfl, rfl⟩

/-- Claim C4, amended: the loop checks that the index set covers the
contiguous range of length `len(subtasks)` starting at 1 — or at 0 when
a `samples` subtask is counted (problem type not `OutputOnly` and a
`samples` key present), the opposite of the claim's condition; and for
each loop counter `i` whose checked index `i + offset` is not covered,
exactly one error is recorded naming `i` (which equals the missing index
only when the offset is 0). -/
theorem c4_theorem (problem : Option Json) (lst : List String) (file : FileContent)
    (subs : Json) (diags : List Diag) (warns : List Warn)
    (h : verify_subtasks problem lst file = .ok (some subs, diags, warns))
    (hwf : allEntries entryWF subs = true) :
    ∀ i : Nat, diags.count (Diag.missingIndex i) =
      if i < jObjLen subs ∧
          memPy (.int ((i + sampleOffset problem subs : Nat) : Int))
            (addPyChain [] subs) = false
      then 1 else 0 := by
  intro i
  obtain ⟨sd, d0, hG, hS, r1, r2, sv, d3, r4, stF, hload, hcg, hcs, hgs, hcvk1, hcvk2, hdg,
    hpl, hsub, hsb, hloop, hdiags, hwarns⟩ :=
    verify_subtasks_ok_inv problem lst file subs diags warns h
  obtain ⟨⟨Δ, hΔ, hΔok⟩, -, hidx⟩ :=
    subtasksLoop_ok subs (validatorFilesOf lst) ⟨[], 0, r2.1, []⟩ stF hloop
  have hindexes : stF.indexes = addPyChain [] subs := by simpa using hidx hwf
  have hoff := samplesBlock_offset problem subs r4 hsb
  have z0 : d0.count (Diag.missingIndex i) = 0 := by
    rw [List.count_eq_zero]
    intro hm
    rcases load_data_diags file _ _ d0 hload _ hm with ⟨k, hk⟩ | hk | hk | ⟨k, -, hk⟩ <;>
      simp at hk
  have z1 : r1.2.count (Diag.missingIndex i) = 0 := by
    rw [List.count_eq_zero]
    intro hm
    rcases check_validator_key_diags _ _ _ _ _ _ r1 hcvk1 _ hm with ⟨a, b, hk⟩ |
      ⟨a, b, c, hk⟩ | ⟨a, b, c, hk⟩ <;> simp at hk
  have z2 : r2.2.count (Diag.missingIndex i) = 0 := by
    rw [List.count_eq_zero]
    intro hm
    rcases check_validator_key_diags _ _ _ _ _ _ r2 hcvk2 _ hm with ⟨a, b, hk⟩ |
      ⟨a, b, c, hk⟩ | ⟨a, b, c, hk⟩ <;> simp at hk
  have z3 : d3.count (Diag.missingIndex i) = 0 := by
    rw [List.count_eq_zero]
    intro hm
    rcases placeholderLoop_diags sv d3 hpl _ hm with ⟨a, b, hk⟩ | ⟨a, hk⟩ <;> simp at hk
  have z4 : r4.2.count (Diag.missingIndex i) = 0 := by
    rw [List.count_eq_zero]
    intro hm
    have := samplesBlock_diags problem subs r4 hsb _ hm
    simp at this
  have z5 : stF.diags.count (Diag.missingIndex i) = 0 := by
    rw [List.count_eq_zero]
    intro hm
    rw [hΔ] at hm
    simp only [List.nil_append] at hm
    have := hΔok _ hm
    simp [loopDiagOK] at this
  have z6 : (if stF.scoreSum ≠ 100 then [Diag.sumOfScores stF.scoreSum] else []).count
      (Diag.missingIndex i) = 0 := by
    rw [List.count_eq_zero]
    intro hm
    split at hm <;> simp at hm
  rw [hdiags]
  simp only [List.count_append, z0, z1, z2, z3, z4, z5, z6, Nat.zero_add, Nat.add_zero]
  simp only [missingIndexDiags]
  rw [count_filterMap_missing stF.indexes (if r4.1 then 0 else 1) i
    (List.range (jObjLen subs)) (List.nodup_range _)]
  rw [hindexes, hoff]
  simp only [List.mem_range]

/-- Claim C4 witness: no `samples` subtask, two subtasks with indices 1
and 3 — the loop counter `i = 1` has checked index `2` uncovered, so
exactly one error `missing index 1` is recorded (naming the counter, not
the absent index 2). -/
theorem c4_witness :
    List.count (Diag.missingIndex 1)
        [Diag.keyRequired "samples" none, Diag.missingIndex 1] =
      if 1 < jObjLen (jObj [("a", jObj [("index", .int 1), ("score", .int 60)]),
            ("b", jObj [("index", .int 3), ("score", .int 40)])]) ∧
          memPy (.int ((1 + sampleOffset
              (some (jObj [("name", .str "p"), ("title", .str "t"), ("type", .str "Batch"),
                ("time_limit", .float 1), ("memory_limit", .int 256)]))
              (jObj [("a", jObj [("index", .int 1), ("score", .int 60)]),
                ("b", jObj [("index", .int 3), ("score", .int 40)])]) : Nat) : Int))
            (addPyChain [] (jObj [("a", jObj [("index", .int 1), ("score", .int 60)]),
              ("b", jObj [("index", .int 3), ("score", .int 40)])])) = false
      then 1 else 0 :=
  c4_theorem
    (some (jObj [("name", .str "p"), ("title", .str "t"), ("type", .str "Batch"),
      ("time_limit", .float 1), ("memory_limit", .int 256)]))
    [] (.json (jObj [("subtasks", jObj [("a", jObj [("index", .int 1), ("score", .int 60)]),
      ("b", jObj [("index", .int 3), ("score", .int 40)])]), ("global_validators", jArr [])]))
    (jObj [("a", jObj [("index", .int 1), ("score", .int 60)]),
      ("b", jObj [("index", .int 3), ("score", .int 40)])])
    [Diag.keyRequired "samples" none, Diag.missingIndex 1] [] rfl rfl 1

/-- Claim C10: for every problem.json that loaded (as a dict) with a
`type` other than `OutputOnly`, and every run of `verify_subtasks` that
obtains a subtask dict with no `samples` key, the error `samples is
required` is recorded: a `samples` subtask is mandatory for all
non-OutputOnly problem types. -/
theorem c10_theorem (p : Json) (lst : List String) (file : FileContent)
    (subs : Json) (diags : List Diag) (warns : List Warn) (t : Json)
    (h : verify_subtasks (some p) lst file = .ok (some subs, diags, warns))
    (htype : jLookup p "type" = some t)
    (ht : t ≠ .str "OutputOnly")
    (hns : pyContainsE subs "samples" = .ok false) :
    Diag.keyRequired "samples" none ∈ diags := by
  obtain ⟨sd, d0, hG, hS, r1, r2, sv, d3, r4, stF, hload, hcg, hcs, hgs, hcvk1, hcvk2, hdg,
    hpl, hsub, hsb, hloop, hdiags, hwarns⟩ :=
    verify_subtasks_ok_inv (some p) lst file subs diags warns h
  have hr4 : r4 = (false, [Diag.keyRequired "samples" none]) := by
    simp only [samplesBlock] at hsb
    split at hsb
    · simp at hsb
    · simp only [htype] at hsb
      rw [if_neg ht] at hsb
      simp only [hns] at hsb
      rw [Except.ok.injEq] at hsb
      exact hsb.symm
  rw [hdiags, hr4]
  simp

/-- Claim C10 witness: a `Batch` problem and a subtasks file with a
single subtask and no `samples` key; the `samples is required` error is
recorded. -/
theorem c10_witness :
    Diag.keyRequired "samples" none ∈ [Diag.keyRequired "samples" none] :=
  c10_theorem
    (jObj [("name", .str "p"), ("title", .str "t"), ("type", .str "Batch"),
      ("time_limit", .float 1), ("memory_limit", .int 256)])
    [] (.json (jObj [("subtasks", jObj [("a", jObj [("index", .int 1), ("score", .int 100)])]),
      ("global_validators", jArr [])]))
    (jObj [("a", jObj [("index", .int 1), ("score", .int 100)])])
    [Diag.keyRequired "samples" none] [] (.str "Batch") rfl rfl (by simp) rfl

theorem pyContainsE_false_lookup (data : Json) (k : String)
    (h : pyContainsE data k = .ok false) : jLookup data k = none := by
  cases data <;> simp only [pyContainsE] at h <;> try simp [jLookup]
  case objCons key v t =>
    rw [Except.ok.injEq] at h
    cases hl : jLookup (.objCons key v t) k with
    | none => exact hl
    | some w => rw [hl] at h; simp at h

theorem verify_verdict_snd (v : Json) (k : String) :
    (verify_verdict v k).2 = [] ∨ (verify_verdict v k).2 = [Diag.verdictInvalid k] := by
  unfold verify_verdict
  split
  · split <;> simp
  · simp

theorem exceptLoop_diags (exc : Json) : ∀ (subtasks : Json) (sname : String) (ds : List Diag),
    exceptLoop subtasks sname exc = .ok ds →
    ∀ d ∈ ds, (∃ a, d = Diag.exceptUndefined a) ∨ ∃ a, d = Diag.verdictInvalid a := by
  induction exc with
  | objCons k v t ihv iht =>
      intro subtasks sname ds h d hd
      clear ihv
      simp only [exceptLoop, bind, Except.bind, pure, Except.pure] at h
      cases hc : pyContainsE subtasks k with
      | error e => rw [hc] at h; simp at h
      | ok c =>
          rw [hc] at h
          simp only at h
          cases h2 : exceptLoop subtasks sname t with
          | error e => rw [h2] at h; simp at h
          | ok ds2 =>
              rw [h2] at h
              simp only [Except.ok.injEq] at h
              subst h
              rcases List.mem_append.mp hd with hd2 | hd2
              · cases c with
                | false => simp at hd2; simp [hd2]
                | true =>
                    simp only [Bool.not_true, Bool.false_eq_true, if_neg,
                      not_false_eq_true] at hd2
                    rcases verify_verdict_snd v (sname ++ ".except." ++ k) with he | he <;>
                      rw [he] at hd2 <;> simp at hd2
                    simp [hd2]
              · exact iht subtasks sname ds2 h2 d hd2
  | null => intro subtasks sname ds h d hd; simp only [exceptLoop, pure, Except.pure,
      Except.ok.injEq] at h; subst h; simp at hd
  | bool b => intro subtasks sname ds h d hd; simp only [exceptLoop, pure, Except.pure,
      Except.ok.injEq] at h; subst h; simp at hd
  | int n => intro subtasks sname ds h d hd; simp only [exceptLoop, pure, Except.pure,
      Except.ok.injEq] at h; subst h; simp at hd
  | float q => intro subtasks sname ds h d hd; simp only [exceptLoop, pure, Except.pure,
      Except.ok.injEq] at h; subst h; simp at hd
  | str s => intro subtasks sname ds h d hd; simp only [exceptLoop, pure, Except.pure,
      Except.ok.injEq] at h; subst h; simp at hd
  | arrNil => intro subtasks sname ds h d hd; simp only [exceptLoop, pure, Except.pure,
      Except.ok.injEq] at h; subst h; simp at hd
  | arrCons hh tt ih1 ih2 => intro subtasks sname ds h d hd; simp only [exceptLoop, pure,
      Except.pure, Except.ok.injEq] at h; subst h; simp at hd
  | objNil => intro subtasks sname ds h d hd; simp only [exceptLoop, pure, Except.pure,
      Except.ok.injEq] at h; subst h; simp at hd

theorem solutionExceptPart_diags (subtasks : Json) (sname : String) (data : Json)
    (ds : List Diag) (h : solutionExceptPart subtasks sname data = .ok ds) :
    ∀ d ∈ ds, (∃ a, d = Diag.invalidExcept a) ∨ (∃ a, d = Diag.exceptUndefined a) ∨
      ∃ a, d = Diag.verdictInvalid a := by
  intro d hd
  simp only [solutionExceptPart, bind, Except.bind, pure, Except.pure] at h
  cases hc : pyContainsE data "except" with
  | error e => rw [hc] at h; simp at h
  | ok c =>
      rw [hc] at h
      cases c with
      | false =>
          simp only [Bool.not_false, if_pos, Except.ok.injEq] at h
          subst h
          simp at hd
      | true =>
          simp only [Bool.not_true, Bool.false_eq_true, if_neg, not_false_eq_true] at h
          cases he : pySubscriptStr data "except" with
          | error e => rw [he] at h; simp at h
          | ok exc =>
              rw [he] at h
              simp only at h
              split at h
              · rw [Except.ok.injEq] at h
                subst h
                simp at hd
                simp [hd]
              · rcases exceptLoop_diags exc subtasks sname ds h d hd with h2 | h2
                · exact Or.inr (Or.inl h2)
                · exact Or.inr (Or.inr h2)

theorem solutionStep_ok (solutions subtasks : Json) (st : SolSt) (item : Json) (st2 : SolSt)
    (h : solutionStep solutions subtasks st item = .ok st2) :
    ∃ Δ, st2.diags = st.diags ++ Δ ∧ (∀ d ∈ Δ, solDiagOK d = true) ∧
      Δ.count Diag.moreThanOneModel + (if st2.model.isSome then 1 else 0) =
        (if stepHit solutions st.files item then 1 else 0) +
          (if st.model.isSome then 1 else 0) ∧
      st2.model.isSome = (st.model.isSome || stepHit solutions st.files item) ∧
      st2.files = stepFiles st.files item := by
  cases item with
  | str sname =>
      simp only [solutionStep] at h
      split at h
      · rename_i hnf
        have hcf : st.files.contains sname = false := by
          cases hb : st.files.contains sname <;> simp_all
        have hmem : sname ∉ st.files := by simpa using hcf
        rw [Except.ok.injEq] at h
        subst h
        exact ⟨[Diag.solNotExists sname], rfl, by simp [solDiagOK],
          by simp [stepHit, hmem], by simp [stepHit, hmem], by simp [stepFiles, hmem]⟩
      · rename_i hnf
        have hcont : st.files.contains sname = true := by
          cases hb : st.files.contains sname <;> simp_all
        have hmem : sname ∈ st.files := by simpa using hcont
        cases hdata : pySubscriptStr solutions sname with
        | error e => rw [hdata] at h; simp at h
        | ok data =>
            rw [hdata] at h
            simp only at h
            cases hcv : pyContainsE data "verdict" with
            | error e => rw [hcv] at h; simp at h
            | ok cv =>
                rw [hcv] at h
                cases cv with
                | false =>
                    simp only at h
                    rw [Except.ok.injEq] at h
                    subst h
                    have hmk : isModelKey solutions sname = false := by
                      simp only [isModelKey]
                      rw [pySubscriptStr_ok_lookup solutions sname data hdata]
                      simp only [Option.getD_some]
                      rw [pyContainsE_false_lookup data "verdict" hcv]
                      rfl
                    have hsh : stepHit solutions st.files (.str sname) = false := by
                      simp [stepHit, hmem, hmk]
                    exact ⟨[Diag.keyRequired "verdict" (some sname)], rfl,
                      by simp [solDiagOK], by simp [hsh], by simp [hsh],
                      by simp [stepFiles, hmem]⟩
                | true =>
                    simp only at h
                    cases hv : pySubscriptStr data "verdict" with
                    | error e => rw [hv] at h; simp at h
                    | ok v =>
                        rw [hv] at h
                        simp only at h
                        cases hexc : solutionExceptPart subtasks sname data with
                        | error e => rw [hexc] at h; simp at h
                        | ok dExc =>
                            rw [hexc] at h
                            rw [Except.ok.injEq] at h
                            subst h
                            have hmk : isModelKey solutions sname =
                                (v == .str model_solution_verdict) := by
                              simp only [isModelKey]
                              rw [pySubscriptStr_ok_lookup solutions sname data hdata]
                              simp only [Option.getD_some]
                              rw [pySubscriptStr_ok_lookup data "verdict" v hv]
                              simp only [Option.getD_some]
                            have hisom : ((verify_verdict v sname).1 &&
                                (v == .str model_solution_verdict)) =
                                (v == .str model_solution_verdict) := by
                              cases hbe : (v == Json.str model_solution_verdict) with
                              | false => simp
                              | true =>
                                  have hveq : v = .str model_solution_verdict :=
                                    eq_of_beq hbe
                                  subst hveq
                                  simp [verify_verdict, valid_verdicts]
                            have hsh : stepHit solutions st.files (.str sname) =
                                (v == .str model_solution_verdict) := by
                              simp [stepHit, hmem, hmk]
                            have hc1 : ((verify_verdict v sname).2).count
                                Diag.moreThanOneModel = 0 := by
                              rcases verify_verdict_snd v sname with h2 | h2 <;> rw [h2] <;>
                                simp
                            have hc3 : dExc.count Diag.moreThanOneModel = 0 := by
                              rw [List.count_eq_zero]
                              intro hm
                              rcases solutionExceptPart_diags subtasks sname data dExc hexc _
                                hm with ⟨a, hk⟩ | ⟨a, hk⟩ | ⟨a, hk⟩ <;> simp at hk
                            refine ⟨(verify_verdict v sname).2 ++
                              (if ((verify_verdict v sname).1 &&
                                  (v == .str model_solution_verdict)) && st.model.isSome
                                then [Diag.moreThanOneModel] else []) ++ dExc,
                              by simp [List.append_assoc], ?_, ?_, ?_, ?_⟩
                            · intro d hd
                              rcases List.mem_append.mp hd with hd2 | hd2
                              rcases List.mem_append.mp hd2 with hd3 | hd3
                              · rcases verify_verdict_snd v sname with h2 | h2 <;>
                                  rw [h2] at hd3 <;> simp at hd3
                                simp [hd3, solDiagOK]
                              · split at hd3 <;> simp at hd3
                                simp [hd3, solDiagOK]
                              · rcases solutionExceptPart_diags subtasks sname data dExc hexc
                                  _ hd2 with ⟨a, hk⟩ | ⟨a, hk⟩ | ⟨a, hk⟩ <;> subst hk <;>
                                  simp [solDiagOK]
                            · simp only [List.count_append, hc1, hc3, Nat.zero_add,
                                Nat.add_zero, hisom, hsh]
                              cases hbe : (v == Json.str model_solution_verdict) <;>
                                cases hsome : st.model.isSome <;> simp [hsome]
                            · simp only [hsh, hisom]
                              cases hbe : (v == Json.str model_solution_verdict) <;>
                                cases hsome : st.model.isSome <;> simp [hsome]
                            · simp [stepFiles, hmem]
  | null =>
      simp only [solutionStep, isUnhashable] at h
      rw [if_neg (by simp)] at h
      rw [Except.ok.injEq] at h
      subst h
      exact ⟨[Diag.solNotExists (pyStr .null)], rfl, by simp [solDiagOK],
        by simp [stepHit], by simp [stepHit], by simp [stepFiles]⟩
  | bool b =>
      simp only [solutionStep, isUnhashable] at h
      rw [if_neg (by simp)] at h
      rw [Except.ok.injEq] at h
      subst h
      exact ⟨[Diag.solNotExists (pyStr (.bool b))], rfl, by simp [solDiagOK],
        by simp [stepHit], by simp [stepHit], by simp [stepFiles]⟩
  | int n =>
      simp only [solutionStep, isUnhashable] at h
      rw [if_neg (by simp)] at h
      rw [Except.ok.injEq] at h
      subst h
      exact ⟨[Diag.solNotExists (pyStr (.int n))], rfl, by simp [solDiagOK],
        by simp [stepHit], by simp [stepHit], by simp [stepFiles]⟩
  | float q =>
      simp only [solutionStep, isUnhashable] at h
      rw [if_neg (by simp)] at h
      rw [Except.ok.injEq] at h
      subst h
      exact ⟨[Diag.solNotExists (pyStr (.float q))], rfl, by simp [solDiagOK],
        by simp [stepHit], by simp [stepHit], by simp [stepFiles]⟩
  | arrNil =>
      simp only [solutionStep, isUnhashable] at h
      simp at h
  | arrCons hh tt =>
      simp only [solutionStep, isUnhashable] at h
      simp at h
  | objNil =>
      simp only [solutionStep, isUnhashable] at h
      simp at h
  | objCons k v t =>
      simp only [solutionStep, isUnhashable] at h
      simp at h

theorem solLoop_ok (solutions subtasks : Json) (st : SolSt) (items : List Json) (st2 : SolSt)
    (h : solLoop solutions subtasks st items = .ok st2) :
    ∃ Δ, st2.diags = st.diags ++ Δ ∧ (∀ d ∈ Δ, solDiagOK d = true) ∧
      Δ.count Diag.moreThanOneModel + (if st2.model.isSome then 1 else 0) =
        loopHits solutions st.files items + (if st.model.isSome then 1 else 0) ∧
      st2.model.isSome =
        (st.model.isSome || decide (0 < loopHits solutions st.files items)) := by
  induction items generalizing st with
  | nil =>
      simp only [solLoop] at h
      rw [Except.ok.injEq] at h
      subst h
      exact ⟨[], by simp, by simp, by simp [loopHits], by simp [loopHits]⟩
  | cons i t ih =>
      simp only [solLoop] at h
      cases hstep : solutionStep solutions subtasks st i with
      | error e => rw [hstep] at h; simp at h
      | ok st1 =>
          rw [hstep] at h
          obtain ⟨Δ1, hd1, hok1, hc1, hm1, hf1⟩ :=
            solutionStep_ok solutions subtasks st i st1 hstep
          obtain ⟨Δ2, hd2, hok2, hc2, hm2⟩ := ih st1 h
          refine ⟨Δ1 ++ Δ2, ?_, ?_, ?_, ?_⟩
          · rw [hd2, hd1, List.append_assoc]
          · intro d hd
            rcases List.mem_append.mp hd with h1 | h1
            exacts [hok1 d h1, hok2 d h1]
          · rw [List.count_append, loopHits]
            rw [hf1] at hc2
            omega
          · rw [hm2, hm1, hf1]
            cases hsh : stepHit solutions st.files i with
            | false => simp [loopHits, hsh]
            | true =>
                have hp : 0 < loopHits solutions st.files (i :: t) := by
                  rw [loopHits, if_pos hsh]
                  omega
                simp [hp]

theorem modelCountKeys_filter (sols : Json) (files : List String) (k : String)
    (keys : List String) (hk : k ∉ keys) :
    modelCountKeys sols (files.filter (fun f => !decide (f = k))) keys =
      modelCountKeys sols files keys := by
  induction keys with
  | nil => rfl
  | cons k2 t ih =>
      have hne : k2 ≠ k := fun he => hk (he ▸ List.mem_cons_self _ _)
      have hk2 : k ∉ t := fun he => hk (List.mem_cons_of_mem _ he)
      have hcc : ((files.filter (fun f => !decide (f = k))).contains k2) = files.contains k2 := by
        simp [List.mem_filter, hne]
      simp only [modelCountKeys, hcc, ih hk2]

theorem loopHits_eq_modelCountKeys (sols : Json) (files : List String)
    (keys : List String) (hnd : keys.Nodup) :
    loopHits sols files (keys.map Json.str) = modelCountKeys sols files keys := by
  induction keys generalizing files with
  | nil => rfl
  | cons k t ih =>
      rcases List.nodup_cons.mp hnd with ⟨hk, hnd2⟩
      simp only [List.map_cons, loopHits, modelCountKeys, stepHit, stepFiles]
      by_cases hm : k ∈ files
      · have hb : files.contains k = true := by simpa using hm
        simp [hb, hm, ih _ hnd2, modelCountKeys_filter sols files k t hk]
      · have hb : files.contains k = false := by simpa using hm
        simp [hb, hm, ih files hnd2]

theorem solItems_obj (sols : Json) (h : allEntries (fun _ => true) sols = true) :
    solItems sols = .ok ((jKeys sols).map Json.str) := by
  induction sols with
  | null => simp [allEntries] at h
  | bool b => simp [allEntries] at h
  | int n => simp [allEntries] at h
  | float q => simp [allEntries] at h
  | str s => simp [allEntries] at h
  | arrNil => simp [allEntries] at h
  | arrCons a t ih1 ih2 => simp [allEntries] at h
  | objNil => rfl
  | objCons k v t ih1 ih2 =>
      simp only [allEntries, Bool.true_and] at h
      simp [solItems, ih2 h, jKeys]

/-- C5: for a successfully loaded `solutions.json` (a proper dict with
distinct keys) processed against a successfully loaded subtask set,
`verify_solutions` records "there is no model solution" iff no
represented entry has verdict `model_solution`, and records exactly
`n - 1` copies of "there is more than one model solutions" when `n`
represented entries have that verdict. -/
theorem c5_theorem (stk sols : Json) (listing : List String) (file : FileContent)
    (diags : List Diag) (warns : List Warn)
    (h : verify_solutions (some stk) listing file = .ok (some sols, diags, warns))
    (hobj : allEntries (fun _ => true) sols = true)
    (hnd : (jKeys sols).Nodup) :
    (Diag.noModel ∈ diags ↔
      representedModelCount sols (dedupFirst (get_list_of_files listing)) = 0) ∧
    diags.count Diag.moreThanOneModel =
      representedModelCount sols (dedupFirst (get_list_of_files listing)) - 1 ∧
    renderDiag Diag.noModel = "there is no model solution" ∧
    renderDiag Diag.moreThanOneModel = "there is more than one model solutions" := by
  simp only [verify_solutions, bind, Except.bind, pure, Except.pure] at h
  cases h0 : load_data file [] with
  | error e => rw [h0] at h; simp at h
  | ok r0 =>
      rw [h0] at h
      obtain ⟨o, d0⟩ := r0
      cases o with
      | none => simp at h
      | some sols0 =>
          simp only at h
          cases hit : solItems sols0 with
          | error e => rw [hit] at h; simp at h
          | ok items =>
              rw [hit] at h
              simp only at h
              cases hloop : solLoop sols0 stk
                  ⟨dedupFirst (get_list_of_files listing), none, []⟩ items with
              | error e => rw [hloop] at h; simp at h
              | ok stF =>
                  rw [hloop] at h
                  simp only [Except.ok.injEq, Prod.mk.injEq, Option.some.injEq] at h
                  obtain ⟨hsols, hdg, hwn⟩ := h
                  subst hsols
                  rw [solItems_obj sols0 hobj] at hit
                  rw [Except.ok.injEq] at hit
                  subst hit
                  obtain ⟨Δ, hΔd, hΔok, hΔc, hΔm⟩ :=
                    solLoop_ok sols0 stk ⟨dedupFirst (get_list_of_files listing), none, []⟩
                      ((jKeys sols0).map Json.str) stF hloop
                  simp only [List.nil_append] at hΔd
                  simp only at hΔc hΔm
                  rw [loopHits_eq_modelCountKeys sols0 _ (jKeys sols0) hnd] at hΔc hΔm
                  have hd0shape := load_data_diags file [] (some sols0) d0 h0
                  have hcnt0 : List.count Diag.moreThanOneModel d0 = 0 := by
                    rw [List.count_eq_zero]
                    intro hmem
                    rcases hd0shape _ hmem with ⟨k, hk⟩ | hk | hk | ⟨k, hks, hk⟩
                    · simp at hk
                    · simp at hk
                    · simp at hk
                    · simp at hks
                  have hnm0 : Diag.noModel ∉ d0 := by
                    intro hmem
                    rcases hd0shape _ hmem with ⟨k, hk⟩ | hk | hk | ⟨k, hks, hk⟩
                    · simp at hk
                    · simp at hk
                    · simp at hk
                    · simp at hks
                  have hcntL : List.count Diag.moreThanOneModel stF.diags +
                      (if stF.model.isSome then 1 else 0) =
                      representedModelCount sols0 (dedupFirst (get_list_of_files listing)) := by
                    rw [hΔd]
                    simpa [representedModelCount] using hΔc
                  have hnmL : Diag.noModel ∉ stF.diags := by
                    rw [hΔd]
                    intro hmem
                    have := hΔok _ hmem
                    simp [solDiagOK] at this
                  have hcntR : List.count Diag.moreThanOneModel
                      (stF.files.map Diag.notRepresented) = 0 := by
                    rw [List.count_eq_zero]
                    intro hmem
                    rcases List.mem_map.mp hmem with ⟨x, hx1, hx2⟩
                    simp at hx2
                  have hnmR : Diag.noModel ∉ stF.files.map Diag.notRepresented := by
                    intro hmem
                    rcases List.mem_map.mp hmem with ⟨x, hx1, hx2⟩
                    simp at hx2
                  subst hdg
                  refine ⟨?_, ?_, rfl, rfl⟩
                  · cases hq : stF.model with
                    | some m =>
                        have hs : stF.model.isSome = true := by rw [hq]; rfl
                        have hpos : 0 < representedModelCount sols0
                            (dedupFirst (get_list_of_files listing)) := by
                          rw [hs] at hΔm
                          have := of_decide_eq_true hΔm.symm
                          simpa [representedModelCount] using this
                        simp only [Option.isNone_some, Bool.false_eq_true, if_false]
                        simp [hnm0, hnmL, hnmR]
                        omega
                    | none =>
                        have hs : stF.model.isSome = false := by rw [hq]; rfl
                        have hz : representedModelCount sols0
                            (dedupFirst (get_list_of_files listing)) = 0 := by
                          rw [hs] at hΔm
                          have := of_decide_eq_false hΔm.symm
                          simp [representedModelCount] at this ⊢
                          omega
                        simp [hz]
                  · simp only [List.count_append, hcnt0, hcntR, Nat.zero_add, Nat.add_zero]
                    cases hq : stF.model with
                    | some m =>
                        have hs : stF.model.isSome = true := by rw [hq]; rfl
                        rw [hs, if_pos rfl] at hcntL
                        simp only [Option.isNone_some, Bool.false_eq_true, if_false,
                          List.count_nil, Nat.add_zero]
                        omega
                    | none =>
                        have hs : stF.model.isSome = false := by rw [hq]; rfl
                        rw [hs, if_neg (by simp)] at hcntL
                        have hz : representedModelCount sols0
                            (dedupFirst (get_list_of_files listing)) = 0 := by
                          rw [hs] at hΔm
                          have := of_decide_eq_false hΔm.symm
                          simp [representedModelCount] at this ⊢
                          omega
                        simp [hz]
                        omega

theorem c5_witness :
    verify_solutions (some (jObj [])) ["a.cpp", "b.cpp"]
        (.json (jObj [("a.cpp", jObj [("verdict", Json.str "model_solution")]),
          ("b.cpp", jObj [("verdict", Json.str "model_solution")])])) =
      .ok (some (jObj [("a.cpp", jObj [("verdict", Json.str "model_solution")]),
          ("b.cpp", jObj [("verdict", Json.str "model_solution")])]),
        [Diag.moreThanOneModel], []) ∧
    ((Diag.noModel ∈ [Diag.moreThanOneModel] ↔
        representedModelCount
          (jObj [("a.cpp", jObj [("verdict", Json.str "model_solution")]),
            ("b.cpp", jObj [("verdict", Json.str "model_solution")])])
          (dedupFirst (get_list_of_files ["a.cpp", "b.cpp"])) = 0) ∧
      List.count Diag.moreThanOneModel [Diag.moreThanOneModel] =
        representedModelCount
          (jObj [("a.cpp", jObj [("verdict", Json.str "model_solution")]),
            ("b.cpp", jObj [("verdict", Json.str "model_solution")])])
          (dedupFirst (get_list_of_files ["a.cpp", "b.cpp"])) - 1 ∧
      renderDiag Diag.noModel = "there is no model solution" ∧
      renderDiag Diag.moreThanOneModel = "there is more than one model solutions") :=
  ⟨rfl, c5_theorem (jObj [])
    (jObj [("a.cpp", jObj [("verdict", Json.str "model_solution")]),
      ("b.cpp", jObj [("verdict", Json.str "model_solution")])])
    ["a.cpp", "b.cpp"]
    (.json (jObj [("a.cpp", jObj [("verdict", Json.str "model_solution")]),
      ("b.cpp", jObj [("verdict", Json.str "model_solution")])]))
    [Diag.moreThanOneModel] [] rfl rfl (by decide)⟩

theorem verify_verdict_false (v : Json) (k : String)
    (h : (verify_verdict v k).1 = false) :
    (verify_verdict v k).2 = [Diag.verdictInvalid k] := by
  cases v with
  | str s =>
      simp only [verify_verdict] at h ⊢
      cases hc : valid_verdicts.contains s with
      | true =>
          have hm : s ∈ valid_verdicts := by simpa using hc
          simp [hm] at h
      | false => simp
  | null => rfl
  | bool b => rfl
  | int n => rfl
  | float q => rfl
  | arrNil => rfl
  | arrCons a t => rfl
  | objNil => rfl
  | objCons a b t => rfl

/-- C6 counterexample: a solution entry whose verdict is not in the
enumeration (`"bogus"`) and whose `except` maps an undefined subtask
still has its `except` mapping processed — the run records the
`except`-undefined error right after the verdict error, instead of
skipping the entry's exception processing. -/
theorem c6_counterexample :
    verify_solutions (some (jObj [])) ["s.cpp"]
        (.json (jObj [("s.cpp", jObj [("verdict", Json.str "bogus"),
          ("except", jObj [("u", Json.str "correct")])])])) =
      .ok (some (jObj [("s.cpp", jObj [("verdict", Json.str "bogus"),
          ("except", jObj [("u", Json.str "correct")])])]),
        [Diag.verdictInvalid "s.cpp", Diag.exceptUndefined "u", Diag.noModel], []) ∧
    Diag.exceptUndefined "u" ∈
      [Diag.verdictInvalid "s.cpp", Diag.exceptUndefined "u", Diag.noModel] :=
  ⟨rfl, by decide⟩

/-- C6 (amended): a represented solution entry whose `verdict` value is
invalid gets the verdict error recorded, but its `except` mapping is
still processed — the iteration appends exactly the verdict error
followed by whatever diagnostics the `except` block produces. -/
theorem c6_theorem (solutions subtasks : Json) (st : SolSt) (sname : String)
    (data v : Json) (st2 : SolSt)
    (hfile : st.files.contains sname = true)
    (hdata : pySubscriptStr solutions sname = .ok data)
    (hcv : pyContainsE data "verdict" = .ok true)
    (hv : pySubscriptStr data "verdict" = .ok v)
    (hinv : (verify_verdict v sname).1 = false)
    (hstep : solutionStep solutions subtasks st (.str sname) = .ok st2) :
    ∃ dExc, solutionExceptPart subtasks sname data = .ok dExc ∧
      st2.diags = st.diags ++ [Diag.verdictInvalid sname] ++ dExc := by
  simp only [solutionStep, hfile, Bool.not_true, Bool.false_eq_true, if_false] at hstep
  rw [hdata] at hstep
  simp only at hstep
  rw [hcv] at hstep
  simp only at hstep
  rw [hv] at hstep
  simp only at hstep
  cases hexc : solutionExceptPart subtasks sname data with
  | error e => rw [hexc] at hstep; simp at hstep
  | ok dExc =>
      rw [hexc] at hstep
      rw [Except.ok.injEq] at hstep
      subst hstep
      refine ⟨dExc, rfl, ?_⟩
      simp [hinv, verify_verdict_false v sname hinv]

theorem c6_witness :
    (solutionStep (jObj [("s.cpp", jObj [("verdict", Json.str "bogus"),
          ("except", jObj [("u", Json.str "correct")])])]) (jObj [])
        ⟨["s.cpp"], none, []⟩ (Json.str "s.cpp") =
      .ok ⟨[], none, [Diag.verdictInvalid "s.cpp", Diag.exceptUndefined "u"]⟩) ∧
    ∃ dExc, solutionExceptPart (jObj []) "s.cpp"
        (jObj [("verdict", Json.str "bogus"),
          ("except", jObj [("u", Json.str "correct")])]) = .ok dExc ∧
      (⟨[], none, [Diag.verdictInvalid "s.cpp", Diag.exceptUndefined "u"]⟩ : SolSt).diags =
        SolSt.diags ⟨["s.cpp"], none, []⟩ ++ [Diag.verdictInvalid "s.cpp"] ++ dExc :=
  ⟨rfl, c6_theorem
    (jObj [("s.cpp", jObj [("verdict", Json.str "bogus"),
      ("except", jObj [("u", Json.str "correct")])])])
    (jObj []) ⟨["s.cpp"], none, []⟩ "s.cpp"
    (jObj [("verdict", Json.str "bogus"), ("except", jObj [("u", Json.str "correct")])])
    (Json.str "bogus")
    ⟨[], none, [Diag.verdictInvalid "s.cpp", Diag.exceptUndefined "u"]⟩
    rfl rfl rfl rfl rfl rfl⟩
